import Mathlib

/-!
# Verification of the asynchronous CSV bulk-import pipeline

Shallow embedding of the import core of the repository:

* `app/services/csv_processor.py` — `process_csv_content`, `upsert_batch`,
  `update_progress`, `publish_progress`, `count_csv_rows`, `BATCH_SIZE`;
* `app/tasks/import_tasks.py` — `process_csv_import` (the Celery task);
* `app/api/upload.py` — `stream_progress` (the SSE gateway loop);
* `app/models/product.py`, `app/models/upload_job.py` — the two records.

Rows are modelled as records of optional strings (what `csv.DictReader`
yields per column), the product table as a list of product records, the
job row as an explicit record threaded through the loop, and every side
effect (upsert statement, job-row progress write, Redis publish, status
write, webhook, temp-file removal) as an element of an event trace.
Failure modes are injected through explicit parameters: `failAt` makes the
n-th upsert commit raise (store unavailable), `brokerUp` controls whether
a Redis publish succeeds, `fileExists`/`cleanupFails` drive the task-level
file handling.  Exceptions are modelled as `Option String`/`Except String`
results.
-/

namespace CsvImport

/-- Model of Python `str.lower()` and SQL `lower()`: lower-case every
character (`Char.toLower`, which maps exactly the ASCII range A–Z). -/
def lower (s : String) : String := String.mk (s.data.map Char.toLower)

/-- Model of Python `str.strip()`: drop leading and trailing whitespace. -/
def pyStrip (s : String) : String :=
  String.mk (((s.data.dropWhile Char.isWhitespace).reverse.dropWhile Char.isWhitespace).reverse)

/-- One raw CSV line as produced by `csv.DictReader`: each interesting
column is either absent (`none`) or a string. -/
structure RawRow where
  sku : Option String
  name : Option String
  descr : Option String
deriving DecidableEq, Repr

/-- Python truthiness of `row.get(col)`: `None` and `""` are falsy. -/
def strTruthy : Option String → Bool
  | none => false
  | some s => !(s == "")

/-- The validation at csv_processor.py line 51:
`if not row.get("sku") or not row.get("name"): continue`.
Note this tests the *raw* field values, before any strip/lower. -/
def rowValid (r : RawRow) : Bool := strTruthy r.sku && strTruthy r.name

/-- A normalized row appended to the batch (csv_processor.py lines 56-61). -/
structure Row where
  sku : String
  name : String
  descr : Option String
  active : Bool
deriving DecidableEq, Repr

/-- csv_processor.py lines 56-61: `sku.strip().lower()`, `name.strip()`,
`description.strip() or None`, `active = True`. -/
def normalizeRow (r : RawRow) : Row :=
  { sku := lower (pyStrip (r.sku.getD ""))
  , name := pyStrip (r.name.getD "")
  , descr := let d := pyStrip (r.descr.getD "")
             if d == "" then none else some d
  , active := true }

/-- csv_processor.py line 16. -/
def BATCH_SIZE : Nat := 1000

/-- One row of the `products` table (app/models/product.py). -/
structure Product where
  sku : String
  name : String
  descr : Option String
  active : Bool
deriving DecidableEq, Repr

/-- The `products` table. -/
abbrev Store := List Product

/-- Python-dict assignment `d[k] = v` on an association list that keeps
insertion order of keys: an existing key keeps its position and gets the
new value, a fresh key is appended. -/
def insertKeepPos (m : List (String × Row)) (k : String) (v : Row) : List (String × Row) :=
  match m with
  | [] => [(k, v)]
  | (k', v') :: rest => if k' = k then (k, v) :: rest else (k', v') :: insertKeepPos rest k v

/-- csv_processor.py lines 111-116: build `unique_products` keyed by sku
(later occurrences overwrite earlier ones) and take its values. -/
def dedupBySku (ps : List Row) : List Row :=
  (ps.foldl (fun m p => insertKeepPos m p.sku p) []).map Prod.snd

/-- csv_processor.py lines 130-132: count the products whose
`lower(sku)` is among the batch skus. -/
def existingCount (store : Store) (skus : List String) : Nat :=
  (store.filter (fun p => skus.contains (lower p.sku))).length

/-- Effect of one row of the `INSERT ... ON CONFLICT ("sku") DO UPDATE`
statement (csv_processor.py lines 137-145): on a sku conflict the existing
record keeps its sku and gets the new name / description; otherwise the
row is inserted. -/
def upsertOne (store : Store) (r : Row) : Store :=
  if store.any (fun p => p.sku == r.sku) then
    store.map (fun p => if p.sku == r.sku then { p with name := r.name, descr := r.descr } else p)
  else
    store ++ [{ sku := r.sku, name := r.name, descr := r.descr, active := r.active }]

/-- csv_processor.py lines 93-152 (`upsert_batch`): empty batches are
skipped; otherwise dedupe by sku, count existing skus, execute the atomic
upsert, and return `(batch_size - existing, existing)`. -/
def upsert_batch (products : List Row) (store : Store) : (Nat × Nat) × Store :=
  if products.isEmpty then ((0, 0), store)
  else
    let dd := dedupBySku products
    let existing := existingCount store (dd.map (fun p => p.sku))
    let store' := dd.foldl upsertOne store
    ((dd.length - existing, existing), store')

/-- The `upload_jobs` row (app/models/upload_job.py). -/
structure Job where
  filename : String
  status : String
  total_rows : Nat
  processed_rows : Nat
  created_rows : Nat
  updated_rows : Nat
  error_message : Option String
deriving DecidableEq, Repr

/-- One published progress message (csv_processor.py lines 193-202). -/
structure Snap where
  processed : Nat
  total : Nat
  created : Nat
  updated : Nat
  status : String
  error : Option String
deriving DecidableEq, Repr

/-- The raw Redis publish: raises when the broker is unreachable. -/
def redisPublish (brokerUp : Bool) (s : Snap) : Except String Snap :=
  if brokerUp then Except.ok s else Except.error "Connection refused"

/-- csv_processor.py lines 176-206 (`publish_progress`): the publish is
wrapped in try/except, so it never raises; the result records whether the
message was actually delivered. -/
def publish_progress (brokerUp : Bool) (s : Snap) : Except String (Option Snap) :=
  match redisPublish brokerUp s with
  | Except.ok s => Except.ok (some s)
  | Except.error _ => Except.ok none

/-- One observable side effect of the pipeline. -/
inductive Ev where
  | upsertCall (batch : List Row)
  | progressWrite (processed created updated : Nat)
  | publishSnap (snap : Snap) (delivered : Bool)
  | setStatus (s : String)
  | setTotal (n : Nat)
  | webhook (name : String)
  | fileRemove (ok : Bool)
deriving DecidableEq, Repr

/-- Publish a snapshot through `publish_progress` and record the event. -/
def mkPublish (brokerUp : Bool) (s : Snap) : Ev :=
  match publish_progress brokerUp s with
  | Except.ok (some _) => Ev.publishSnap s true
  | _ => Ev.publishSnap s false

/-- Local state of the `process_csv_content` loop: the Python locals
`batch`, `total`, `created`, `updated`, plus the job row, the products
table and the emitted event trace.  `upserts` counts upsert calls so the
`failAt` fault can be injected at a given batch. -/
structure LoopSt where
  batch : List Row
  total : Nat
  created : Nat
  updated : Nat
  upserts : Nat
  job : Job
  store : Store
  evs : List Ev
deriving DecidableEq, Repr

/-- Error text standing for `str(e)` of a database outage. -/
def dbErrMsg : String := "server closed the connection unexpectedly"

/-- The successful flush of one batch (csv_processor.py lines 68-76 and
81-86): `upsert_batch`, accumulate counters, `update_progress` (write the
job row and commit), and — inside the main loop only — publish a
`processing` snapshot whose `total` field is `job.total_rows`. -/
def flushOk (publishProcessing : Bool) (brokerUp : Bool) (st : LoopSt) : LoopSt :=
  let r := upsert_batch st.batch st.store
  let created := st.created + r.1.1
  let updated := st.updated + r.1.2
  let job := { st.job with processed_rows := st.total, created_rows := created,
                           updated_rows := updated }
  let snapEvs := if publishProcessing then
      [mkPublish brokerUp ⟨st.total, st.job.total_rows, created, updated, "processing", none⟩]
    else []
  { st with created := created, updated := updated, upserts := st.upserts + 1,
            job := job, store := r.2,
            evs := st.evs ++ [Ev.upsertCall st.batch, Ev.progressWrite st.total created updated]
                   ++ snapEvs }

/-- One call to `upsert_batch` from the loop: the call is made, and either
the commit raises (when this is the `failAt`-th upsert) — leaving the
store and the job row untouched, with no progress write — or it succeeds
and the progress is persisted. -/
def flushBatch (failAt : Option Nat) (brokerUp : Bool) (publishProcessing : Bool)
    (st : LoopSt) : LoopSt × Option String :=
  if failAt == some st.upserts then
    ({ st with evs := st.evs ++ [Ev.upsertCall st.batch], upserts := st.upserts + 1 },
     some dbErrMsg)
  else (flushOk publishProcessing brokerUp st, none)

/-- The row loop of `process_csv_content` (csv_processor.py lines 49-90):
skip rows failing the raw sku/name check; append the normalized row and
bump `total`; flush when the batch reaches `BATCH_SIZE`; at end of input
flush the final partial batch (with `update_progress` but no `processing`
publish) and publish the terminal snapshot
`publish_progress(job_id, total, total, created, updated, "completed")`.
An exception from a flush aborts the loop and propagates. -/
def processLoop (failAt : Option Nat) (brokerUp : Bool) :
    List RawRow → LoopSt → LoopSt × Option String
  | [], st =>
    match (if st.batch.isEmpty then (st, none) else flushBatch failAt brokerUp false st) with
    | (st', some e) => (st', some e)
    | (st', none) =>
      ({ st' with evs := st'.evs ++
          [mkPublish brokerUp ⟨st'.total, st'.total, st'.created, st'.updated, "completed", none⟩] },
       none)
  | r :: rs, st =>
    if rowValid r then
      let st' := { st with batch := st.batch ++ [normalizeRow r], total := st.total + 1 }
      if BATCH_SIZE ≤ st'.batch.length then
        match flushBatch failAt brokerUp true st' with
        | (st'', some e) => (st'', some e)
        | (st'', none) => processLoop failAt brokerUp rs { st'' with batch := [] }
      else processLoop failAt brokerUp rs st'
    else processLoop failAt brokerUp rs st

/-- Fresh loop state at entry of `process_csv_content`. -/
def initSt (job : Job) (store : Store) (evs : List Ev) : LoopSt :=
  { batch := [], total := 0, created := 0, updated := 0, upserts := 0,
    job := job, store := store, evs := evs }

/-- csv_processor.py lines 22-90. -/
def process_csv_content (failAt : Option Nat) (brokerUp : Bool) (content : List RawRow)
    (job : Job) (store : Store) (evs : List Ev) : LoopSt × Option String :=
  processLoop failAt brokerUp content (initSt job store evs)

/-- csv_processor.py lines 209-220: `count_csv_rows` counts every data
row the reader yields, valid or not. -/
def count_csv_rows (content : List RawRow) : Nat := content.length

/-- Environment of one task invocation: the file content, the initial
products table, and the injected failure modes. -/
structure Env where
  content : List RawRow
  store : Store
  fileExists : Bool
  failAt : Option Nat
  brokerUp : Bool
  cleanupFails : Bool
deriving Repr

/-- Result of one task invocation: final job row, final products table,
the event trace, the task return/raise, and whether the staged temp file
was actually removed. -/
structure TaskOut where
  job : Job
  store : Store
  evs : List Ev
  result : Except String (Nat × Nat × Nat)
  fileRemoved : Bool
deriving Repr

/-- import_tasks.py lines 170-179: the `finally` block removes the temp
file if it exists; a cleanup error is caught and logged, never raised. -/
def cleanupStep (env : Env) : Bool × Ev :=
  let ok := env.fileExists && !env.cleanupFails
  (ok, Ev.fileRemove ok)

/-- import_tasks.py lines 131-164 (the `except` block): mark the job
`failed` with `error_message = str(e)`, publish a `failed` snapshot with
zero counts and the error, fire the `import.failed` webhook, re-raise;
then the `finally` cleanup runs. -/
def failurePath (env : Env) (job : Job) (store : Store) (evs : List Ev) (e : String) : TaskOut :=
  let job := { job with status := "failed", error_message := some e }
  let evs := evs ++ [Ev.setStatus "failed",
                     mkPublish env.brokerUp ⟨0, 0, 0, 0, "failed", some e⟩,
                     Ev.webhook "import.failed"]
  let c := cleanupStep env
  { job := job, store := store, evs := evs ++ [c.2],
    result := Except.error e, fileRemoved := c.1 }

/-- Error text of the `FileNotFoundError` at import_tasks.py line 69. -/
def fileErrMsg : String := "CSV file not found"

/-- import_tasks.py lines 94-128 (success tail of the task): mark the job
`completed`, fire `import.completed`, return the totals; then the
`finally` cleanup runs. -/
def successPath (env : Env) (st : LoopSt) : TaskOut :=
  let job := { st.job with status := "completed" }
  let evs := st.evs ++ [Ev.setStatus "completed", Ev.webhook "import.completed"]
  let c := cleanupStep env
  { job := job, store := st.store, evs := evs ++ [c.2],
    result := Except.ok (job.total_rows, job.created_rows, job.updated_rows),
    fileRemoved := c.1 }

/-- The guarded body of the task after the file check: run
`process_csv_content`, then take the success tail or the failure path. -/
def mainRun (env : Env) (job : Job) (evs : List Ev) : TaskOut :=
  match process_csv_content env.failAt env.brokerUp env.content job env.store evs with
  | (st, some e) => failurePath env st.job st.store st.evs e
  | (st, none) => successPath env st

/-- import_tasks.py lines 18-179 (`process_csv_import`): set the job to
`processing`, fire `import.started`, check the staged file, count the
rows into `job.total_rows`, run `process_csv_content`, then either mark
the job `completed` and fire `import.completed`, or take the failure
path; the temp file is cleaned up on every exit. -/
def process_csv_import (env : Env) (job0 : Job) : TaskOut :=
  if env.fileExists then
    mainRun env
      { job0 with status := "processing", total_rows := count_csv_rows env.content }
      [Ev.setStatus "processing", Ev.webhook "import.started",
       Ev.setTotal (count_csv_rows env.content)]
  else
    failurePath env { job0 with status := "processing" } env.store
      [Ev.setStatus "processing", Ev.webhook "import.started"] fileErrMsg

/-- upload.py lines 74-80: a snapshot closes the SSE stream iff its
status is `completed` or `failed`. -/
def snapTerminal (s : Snap) : Bool := s.status == "completed" || s.status == "failed"

/-- The snapshots actually delivered to the channel, in publish order. -/
def deliveredSnaps (evs : List Ev) : List Snap :=
  evs.filterMap (fun e => match e with
    | Ev.publishSnap s true => some s
    | _ => none)

/-- upload.py lines 63-92 (`event_generator`): relay every received
snapshot; stop (close the stream) right after relaying the first one
whose status is terminal. -/
def relay : List Snap → List Snap
  | [] => []
  | s :: rest => if snapTerminal s then [s] else s :: relay rest

/-- Number of rows of the input that pass the raw validity check. -/
def validCount (content : List RawRow) : Nat := (content.filter rowValid).length

/-- The normalized valid rows of the input, in file order. -/
def validNorm (content : List RawRow) : List Row :=
  (content.filter rowValid).map normalizeRow

/-- The normalized skus of the valid rows of the input, in file order. -/
def validSkus (content : List RawRow) : List String :=
  (content.filter rowValid).map (fun r => (normalizeRow r).sku)

/-- Sizes of the batches passed to `upsert_batch`, in call order. -/
def upsertSizes (evs : List Ev) : List Nat :=
  evs.filterMap (fun e => match e with
    | Ev.upsertCall b => some b.length
    | _ => none)

/-- The rows passed to `upsert_batch`, concatenated in call order. -/
def emittedRows (evs : List Ev) : List Row :=
  (evs.filterMap (fun e => match e with
    | Ev.upsertCall b => some b
    | _ => none)).flatten

/-- The `(processed, created, updated)` triples persisted to the job row
by `update_progress`, in write order. -/
def checkpoints (evs : List Ev) : List (Nat × Nat × Nat) :=
  evs.filterMap (fun e => match e with
    | Ev.progressWrite p c u => some (p, c, u)
    | _ => none)

/-- The job-status values written to the job row, in write order. -/
def statusWrites (evs : List Ev) : List String :=
  evs.filterMap (fun e => match e with
    | Ev.setStatus s => some s
    | _ => none)

/-- Expected batch sizes for `n` valid rows: full batches of `BATCH_SIZE`
followed by the final partial batch. -/
def expectedBatchSizes (n : Nat) : List Nat :=
  List.replicate (n / BATCH_SIZE) BATCH_SIZE ++
    (if n % BATCH_SIZE = 0 then [] else [n % BATCH_SIZE])

/-- Number of upsert calls a run over `n` valid rows performs. -/
def numBatchesOf (n : Nat) : Nat := (n + (BATCH_SIZE - 1)) / BATCH_SIZE

/-- Well-formedness of the products table reachable by this pipeline:
skus are pairwise distinct and already lower-case (the import writes only
lower-cased skus, and the `LOWER(sku)` unique index keeps them unique). -/
def StoreOk (s : Store) : Prop :=
  (s.map Product.sku).Nodup ∧ ∀ p ∈ s, lower p.sku = p.sku

/-- Delivered-flag normalization used to compare traces across broker
availability. -/
def setDeliv (b : Bool) : Ev → Ev
  | Ev.publishSnap s _ => Ev.publishSnap s b
  | e => e

/-! ## String lemmas: `lower` is idempotent -/

theorem toNat_ofNat_valid (n : Nat) (h : Nat.isValidChar n) : (Char.ofNat n).toNat = n := by
  rw [Char.ofNat, dif_pos h]
  rfl

theorem char_toLower_idem (c : Char) : c.toLower.toLower = c.toLower := by
  unfold Char.toLower
  by_cases h : c.toNat ≥ 65 ∧ c.toNat ≤ 90
  · rw [if_pos h]
    have hv : Nat.isValidChar (c.toNat + 32) := Or.inl (by omega)
    have ht : (Char.ofNat (c.toNat + 32)).toNat = c.toNat + 32 := toNat_ofNat_valid _ hv
    rw [if_neg (by omega)]
  · rw [if_neg h, if_neg h]

theorem lower_idem (s : String) : lower (lower s) = lower s := by
  unfold lower
  simp only [List.map_map]
  congr 1
  induction s.data with
  | nil => rfl
  | cons c cs ih =>
    simp only [List.map, Function.comp_apply, List.cons.injEq]
    exact ⟨char_toLower_idem c, ih⟩

theorem normalizeRow_sku_lower (r : RawRow) :
    lower (normalizeRow r).sku = (normalizeRow r).sku := lower_idem _

/-! ## Association-list lemmas for `dedupBySku` -/

/-- Lookup in the association list built by `insertKeepPos`. -/
def alFind (m : List (String × Row)) (k : String) : Option Row :=
  (m.find? (fun e => e.1 == k)).map Prod.snd

/-- Keys of the association list, in insertion order. -/
def alKeys (m : List (String × Row)) : List String := m.map Prod.fst

theorem insertKeepPos_nil (k : String) (v : Row) : insertKeepPos [] k v = [(k, v)] := rfl

theorem insertKeepPos_cons (k1 : String) (v1 : Row) (m : List (String × Row))
    (k : String) (v : Row) :
    insertKeepPos ((k1, v1) :: m) k v =
      if k1 = k then (k, v) :: m else (k1, v1) :: insertKeepPos m k v := rfl

theorem alFind_nil (k : String) : alFind [] k = none := rfl

theorem alFind_cons (k1 : String) (v1 : Row) (m : List (String × Row)) (k : String) :
    alFind ((k1, v1) :: m) k = if k1 = k then some v1 else alFind m k := by
  by_cases h : k1 = k
  · rw [if_pos h]
    unfold alFind
    rw [List.find?_cons_of_pos _ (by simp [h])]
    rfl
  · rw [if_neg h]
    unfold alFind
    rw [List.find?_cons_of_neg _ (by simp [h])]

theorem alKeys_nil : alKeys [] = [] := rfl

theorem alKeys_cons (k1 : String) (v1 : Row) (m : List (String × Row)) :
    alKeys ((k1, v1) :: m) = k1 :: alKeys m := rfl

theorem alKeys_append (m m' : List (String × Row)) :
    alKeys (m ++ m') = alKeys m ++ alKeys m' := by
  unfold alKeys
  exact List.map_append _ _ _

theorem alFind_insertKeepPos (m : List (String × Row)) (k k' : String) (v : Row) :
    alFind (insertKeepPos m k v) k' = if k' = k then some v else alFind m k' := by
  induction m with
  | nil =>
    rw [insertKeepPos_nil, alFind_cons]
    by_cases h : k' = k
    · simp [h]
    · simp [h, Ne.symm h]
  | cons hd tl ih =>
    obtain ⟨k1, v1⟩ := hd
    rw [insertKeepPos_cons]
    by_cases h1 : k1 = k
    · rw [if_pos h1, alFind_cons, alFind_cons]
      by_cases h : k' = k
      · simp [h]
      · simp [h, Ne.symm h, h1]
    · rw [if_neg h1, alFind_cons, alFind_cons, ih]
      by_cases h2 : k1 = k'
      · have hkk : ¬ k' = k := fun hh => h1 (h2.trans hh)
        simp [h2, hkk]
      · simp [h2]

theorem alKeys_insertKeepPos_of_mem (m : List (String × Row)) (k : String) (v : Row)
    (h : k ∈ alKeys m) : alKeys (insertKeepPos m k v) = alKeys m := by
  induction m with
  | nil => simp [alKeys_nil] at h
  | cons hd tl ih =>
    obtain ⟨k1, v1⟩ := hd
    rw [insertKeepPos_cons]
    by_cases h1 : k1 = k
    · rw [if_pos h1, alKeys_cons, alKeys_cons, h1]
    · have hm : k ∈ alKeys tl := by
        rw [alKeys_cons] at h
        rcases List.mem_cons.mp h with hh | hh
        · exact absurd hh.symm h1
        · exact hh
      rw [if_neg h1, alKeys_cons, alKeys_cons, ih hm]

theorem insertKeepPos_append (m : List (String × Row)) (k : String) (v : Row)
    (h : k ∉ alKeys m) : insertKeepPos m k v = m ++ [(k, v)] := by
  induction m with
  | nil => rfl
  | cons hd tl ih =>
    obtain ⟨k1, v1⟩ := hd
    have h1 : ¬ k1 = k := by
      intro hh
      exact h (by rw [alKeys_cons, hh]; exact List.mem_cons_self _ _)
    have h2 : k ∉ alKeys tl := by
      intro hh
      exact h (by rw [alKeys_cons]; exact List.mem_cons_of_mem _ hh)
    rw [insertKeepPos_cons, if_neg h1, ih h2]
    rfl

theorem alKeys_nodup_insertKeepPos (m : List (String × Row)) (k : String) (v : Row)
    (h : (alKeys m).Nodup) : (alKeys (insertKeepPos m k v)).Nodup := by
  by_cases hm : k ∈ alKeys m
  · rw [alKeys_insertKeepPos_of_mem m k v hm]
    exact h
  · rw [insertKeepPos_append m k v hm, alKeys_append]
    simp only [List.nodup_append]
    refine ⟨h, by simp [alKeys], ?_⟩
    intro a ha hb
    simp only [alKeys, List.map_cons, List.map_nil, List.mem_singleton] at hb
    exact hm (hb ▸ ha)

theorem entries_insertKeepPos (m : List (String × Row)) (k : String) (v : Row) :
    ∀ e ∈ insertKeepPos m k v, e ∈ m ∨ e = (k, v) := by
  induction m with
  | nil =>
    intro e he
    rw [insertKeepPos_nil] at he
    exact Or.inr (by simpa using he)
  | cons hd tl ih =>
    obtain ⟨k1, v1⟩ := hd
    intro e he
    rw [insertKeepPos_cons] at he
    by_cases h1 : k1 = k
    · rw [if_pos h1] at he
      rcases List.mem_cons.mp he with he | he
      · exact Or.inr he
      · exact Or.inl (List.mem_cons_of_mem _ he)
    · rw [if_neg h1] at he
      rcases List.mem_cons.mp he with he | he
      · exact Or.inl (by simp [he])
      · rcases ih e he with hh | hh
        · exact Or.inl (List.mem_cons_of_mem _ hh)
        · exact Or.inr hh

theorem inv_insertKeepPos (m : List (String × Row)) (k : String) (v : Row)
    (hm : ∀ e ∈ m, e.2.sku = e.1) (hv : v.sku = k) :
    ∀ e ∈ insertKeepPos m k v, e.2.sku = e.1 := by
  intro e he
  rcases entries_insertKeepPos m k v e he with h | h
  · exact hm e h
  · rw [h]
    exact hv

theorem length_insertKeepPos (m : List (String × Row)) (k : String) (v : Row) :
    (insertKeepPos m k v).length ≤ m.length + 1 := by
  induction m with
  | nil => simp [insertKeepPos_nil]
  | cons hd tl ih =>
    obtain ⟨k1, v1⟩ := hd
    rw [insertKeepPos_cons]
    by_cases h1 : k1 = k
    · rw [if_pos h1]
      simp
    · rw [if_neg h1]
      simpa using ih

theorem alFind_eq_none_of_not_mem (m : List (String × Row)) (k : String)
    (h : k ∉ alKeys m) : alFind m k = none := by
  induction m with
  | nil => rfl
  | cons hd tl ih =>
    obtain ⟨k1, v1⟩ := hd
    have h1 : ¬ k1 = k := by
      intro hh
      exact h (by rw [alKeys_cons, hh]; exact List.mem_cons_self _ _)
    have h2 : k ∉ alKeys tl := by
      intro hh
      exact h (by rw [alKeys_cons]; exact List.mem_cons_of_mem _ hh)
    rw [alFind_cons, if_neg h1]
    exact ih h2

/-! ## The fold building `unique_products` and its characterization -/

/-- The fold at csv_processor.py lines 111-113 with an explicit initial
association list. -/
def dedupFold (m : List (String × Row)) (ps : List Row) : List (String × Row) :=
  ps.foldl (fun m p => insertKeepPos m p.sku p) m

theorem dedupFold_nil (m : List (String × Row)) : dedupFold m [] = m := rfl

theorem dedupFold_cons (m : List (String × Row)) (p : Row) (ps : List Row) :
    dedupFold m (p :: ps) = dedupFold (insertKeepPos m p.sku p) ps := rfl

theorem dedupBySku_eq_fold (ps : List Row) :
    dedupBySku ps = (dedupFold [] ps).map Prod.snd := rfl

theorem getLast?_cons_or {α : Type} (a : α) (l : List α) :
    (a :: l).getLast? = l.getLast?.or (some a) := by
  cases l with
  | nil => rfl
  | cons b t =>
    rw [List.getLast?_cons_cons]
    cases hx : (b :: t).getLast? with
    | none => exact absurd (List.getLast?_eq_none_iff.mp hx) (by simp)
    | some y => rfl

theorem alFind_dedupFold (ps : List Row) (m : List (String × Row)) (k : String) :
    alFind (dedupFold m ps) k
      = ((ps.filter (fun r => r.sku == k)).getLast?).or (alFind m k) := by
  induction ps generalizing m with
  | nil => simp [dedupFold_nil]
  | cons p ps ih =>
    rw [dedupFold_cons, ih]
    by_cases h : p.sku = k
    · rw [alFind_insertKeepPos, if_pos h.symm, List.filter_cons_of_pos (by simp [h]),
        getLast?_cons_or, Option.or_assoc, Option.or_some]
    · rw [alFind_insertKeepPos, if_neg (fun hh => h hh.symm),
        List.filter_cons_of_neg (by simp [h])]

theorem alKeys_nodup_dedupFold (ps : List Row) (m : List (String × Row))
    (h : (alKeys m).Nodup) : (alKeys (dedupFold m ps)).Nodup := by
  induction ps generalizing m with
  | nil => exact h
  | cons p ps ih => exact ih _ (alKeys_nodup_insertKeepPos _ _ _ h)

theorem inv_dedupFold (ps : List Row) (m : List (String × Row))
    (hm : ∀ e ∈ m, e.2.sku = e.1) : ∀ e ∈ dedupFold m ps, e.2.sku = e.1 := by
  induction ps generalizing m with
  | nil => exact hm
  | cons p ps ih => exact ih _ (inv_insertKeepPos _ _ _ hm rfl)

theorem entries_dedupFold (ps : List Row) (m : List (String × Row)) :
    ∀ e ∈ dedupFold m ps, e ∈ m ∨ e.2 ∈ ps := by
  induction ps generalizing m with
  | nil => exact fun e he => Or.inl he
  | cons p ps ih =>
    intro e he
    rcases ih _ e he with hh | hh
    · rcases entries_insertKeepPos m p.sku p e hh with h2 | h2
      · exact Or.inl h2
      · right
        rw [h2]
        exact List.mem_cons_self _ _
    · exact Or.inr (List.mem_cons_of_mem _ hh)

theorem length_dedupFold (ps : List Row) (m : List (String × Row)) :
    (dedupFold m ps).length ≤ m.length + ps.length := by
  induction ps generalizing m with
  | nil => simp [dedupFold_nil]
  | cons p ps ih =>
    rw [dedupFold_cons]
    have h1 := ih (insertKeepPos m p.sku p)
    have h2 := length_insertKeepPos m p.sku p
    simp only [List.length_cons]
    omega

theorem map_snd_filter_key (m : List (String × Row)) (k : String)
    (hinv : ∀ e ∈ m, e.2.sku = e.1) (hnd : (alKeys m).Nodup) :
    (m.map Prod.snd).filter (fun r => r.sku == k) = (alFind m k).toList := by
  induction m with
  | nil => rfl
  | cons hd tl ih =>
    obtain ⟨k1, v1⟩ := hd
    have hv : v1.sku = k1 := by
      simpa using hinv (k1, v1) (List.mem_cons_self _ _)
    have hinv2 : ∀ e ∈ tl, e.2.sku = e.1 := fun e he => hinv e (List.mem_cons_of_mem _ he)
    rw [alKeys_cons] at hnd
    have hnd2 := (List.nodup_cons.mp hnd).2
    have hk1 := (List.nodup_cons.mp hnd).1
    rw [List.map_cons, alFind_cons]
    by_cases h : k1 = k
    · rw [if_pos h, List.filter_cons_of_pos (by simp [hv, h]),
        ih hinv2 hnd2, alFind_eq_none_of_not_mem tl k (h ▸ hk1)]
      rfl
    · rw [if_neg h, List.filter_cons_of_neg (by simp [hv, h]), ih hinv2 hnd2]

/-! ## Consequences for `dedupBySku` -/

theorem mem_dedupBySku (ps : List Row) (r : Row) (h : r ∈ dedupBySku ps) : r ∈ ps := by
  rw [dedupBySku_eq_fold] at h
  obtain ⟨e, he, hee⟩ := List.mem_map.mp h
  rcases entries_dedupFold ps [] e he with h2 | h2
  · simp at h2
  · rw [← hee]
    exact h2

theorem dedupBySku_sku_nodup (ps : List Row) : ((dedupBySku ps).map Row.sku).Nodup := by
  rw [dedupBySku_eq_fold, List.map_map]
  have hinv := inv_dedupFold ps [] (by simp)
  have hmaps : (dedupFold [] ps).map (Row.sku ∘ Prod.snd) = alKeys (dedupFold [] ps) :=
    List.map_congr_left (fun e he => hinv e he)
  rw [hmaps]
  exact alKeys_nodup_dedupFold ps [] (by simp [alKeys_nil])

theorem dedupBySku_filter_last (ps : List Row) (k : String) :
    (dedupBySku ps).filter (fun r => r.sku == k)
      = ((ps.filter (fun r => r.sku == k)).getLast?).toList := by
  rw [dedupBySku_eq_fold,
    map_snd_filter_key _ k (inv_dedupFold ps [] (by simp))
      (alKeys_nodup_dedupFold ps [] (by simp [alKeys_nil])),
    alFind_dedupFold, alFind_nil, Option.or_none]

theorem dedupBySku_length_le (ps : List Row) : (dedupBySku ps).length ≤ ps.length := by
  rw [dedupBySku_eq_fold, List.length_map]
  simpa using length_dedupFold ps []

theorem dedupBySku_sku_mem (ps : List Row) (k : String) :
    k ∈ (dedupBySku ps).map Row.sku ↔ ∃ r ∈ ps, r.sku = k := by
  constructor
  · intro h
    obtain ⟨r, hr, hrk⟩ := List.mem_map.mp h
    exact ⟨r, mem_dedupBySku ps r hr, hrk⟩
  · rintro ⟨r, hr, hrk⟩
    have hne : ps.filter (fun r => r.sku == k) ≠ [] := by
      intro hh
      exact absurd (by simp [hrk]) (List.filter_eq_nil_iff.mp hh r hr)
    obtain ⟨rl, hrl⟩ := Option.ne_none_iff_exists'.mp
      (fun hh => hne (List.getLast?_eq_none_iff.mp hh))
    have hfl := dedupBySku_filter_last ps k
    rw [hrl] at hfl
    have hmem : rl ∈ (dedupBySku ps).filter (fun r => r.sku == k) := by
      rw [hfl]
      exact List.mem_cons_self _ _
    have := List.mem_filter.mp hmem
    exact List.mem_map.mpr ⟨rl, this.1, by simpa using this.2⟩

theorem dedupFold_of_disjoint (ps : List Row) (m : List (String × Row))
    (hnd : (ps.map Row.sku).Nodup) (hdisj : ∀ p ∈ ps, p.sku ∉ alKeys m) :
    dedupFold m ps = m ++ ps.map (fun p => (p.sku, p)) := by
  induction ps generalizing m with
  | nil => simp [dedupFold_nil]
  | cons p ps ih =>
    rw [dedupFold_cons, insertKeepPos_append m p.sku p (hdisj p (List.mem_cons_self _ _))]
    rw [List.map_cons] at hnd
    have hnd2 := (List.nodup_cons.mp hnd).2
    have hp := (List.nodup_cons.mp hnd).1
    rw [ih _ hnd2]
    · simp
    · intro q hq hmem
      rw [alKeys_append, alKeys_cons, alKeys_nil] at hmem
      rcases List.mem_append.mp hmem with hh | hh
      · exact hdisj q (List.mem_cons_of_mem _ hq) hh
      · rcases List.mem_cons.mp hh with hh | hh
        · exact hp (hh ▸ List.mem_map_of_mem Row.sku hq)
        · simp at hh

theorem dedupBySku_of_nodup (ps : List Row) (h : (ps.map Row.sku).Nodup) :
    dedupBySku ps = ps := by
  rw [dedupBySku_eq_fold, dedupFold_of_disjoint ps [] h (by simp [alKeys_nil])]
  simp only [List.nil_append, List.map_map]
  exact (List.map_congr_left (fun a _ => rfl)).trans (List.map_id ps)

/-! ## Upsert-statement lemmas -/

theorem upsertOne_update (store : Store) (r : Row)
    (h : store.any (fun p => p.sku == r.sku) = true) :
    upsertOne store r =
      store.map (fun p => if p.sku == r.sku then { p with name := r.name, descr := r.descr }
                          else p) := by
  unfold upsertOne
  rw [if_pos h]

theorem upsertOne_insert (store : Store) (r : Row)
    (h : ¬ store.any (fun p => p.sku == r.sku) = true) :
    upsertOne store r =
      store ++ [{ sku := r.sku, name := r.name, descr := r.descr, active := r.active }] := by
  unfold upsertOne
  rw [if_neg h]

theorem updateFn_sku (r : Row) (p : Product) :
    (if p.sku == r.sku then { p with name := r.name, descr := r.descr } else p).sku = p.sku := by
  split <;> rfl

theorem upsertOne_map_sku_update (store : Store) (r : Row)
    (h : store.any (fun p => p.sku == r.sku) = true) :
    (upsertOne store r).map Product.sku = store.map Product.sku := by
  rw [upsertOne_update store r h, List.map_map]
  exact List.map_congr_left (fun p _ => updateFn_sku r p)

theorem upsertOne_map_sku_insert (store : Store) (r : Row)
    (h : ¬ store.any (fun p => p.sku == r.sku) = true) :
    (upsertOne store r).map Product.sku = store.map Product.sku ++ [r.sku] := by
  rw [upsertOne_insert store r h]
  simp

theorem upsertOne_storeOk (store : Store) (r : Row) (hOk : StoreOk store)
    (hlow : lower r.sku = r.sku) : StoreOk (upsertOne store r) := by
  by_cases h : store.any (fun p => p.sku == r.sku) = true
  · constructor
    · rw [upsertOne_map_sku_update store r h]
      exact hOk.1
    · rw [upsertOne_update store r h]
      intro p hp
      obtain ⟨q, hq, hqe⟩ := List.mem_map.mp hp
      have : p.sku = q.sku := by rw [← hqe]; exact updateFn_sku r q
      rw [this]
      exact hOk.2 q hq
  · constructor
    · rw [upsertOne_map_sku_insert store r h]
      have hf : store.any (fun p => p.sku == r.sku) = false := Bool.eq_false_iff.mpr h
      have hnotin : r.sku ∉ store.map Product.sku := by
        intro hmem
        obtain ⟨q, hq, hqe⟩ := List.mem_map.mp hmem
        exact (List.any_eq_false.mp hf q hq) (by simp [hqe])
      simp only [List.nodup_append]
      exact ⟨hOk.1, by simp, by
        intro a ha hb
        simp only [List.mem_singleton] at hb
        exact hnotin (hb ▸ ha)⟩
    · rw [upsertOne_insert store r h]
      intro p hp
      rcases List.mem_append.mp hp with hp | hp
      · exact hOk.2 p hp
      · simp only [List.mem_singleton] at hp
        rw [hp]
        exact hlow

theorem upsertOne_mem_sku (store : Store) (r : Row) (k : String) :
    k ∈ (upsertOne store r).map Product.sku ↔ k ∈ store.map Product.sku ∨ k = r.sku := by
  by_cases h : store.any (fun p => p.sku == r.sku) = true
  · rw [upsertOne_map_sku_update store r h]
    constructor
    · exact Or.inl
    · rintro (hh | hh)
      · exact hh
      · obtain ⟨q, hq, hqe⟩ := List.any_eq_true.mp h
        exact List.mem_map.mpr ⟨q, hq, by rw [eq_of_beq hqe, hh]⟩
  · rw [upsertOne_map_sku_insert store r h]
    simp [List.mem_append]

theorem upsertOne_fields_set (store : Store) (r : Row) :
    ∀ p ∈ upsertOne store r, p.sku = r.sku → p.name = r.name ∧ p.descr = r.descr := by
  by_cases h : store.any (fun p => p.sku == r.sku) = true
  · rw [upsertOne_update store r h]
    intro p hp hsku
    obtain ⟨q, hq, hqe⟩ := List.mem_map.mp hp
    by_cases hc : q.sku == r.sku
    · rw [← hqe]
      simp [hc]
    · rw [← hqe] at hsku
      rw [if_neg hc] at hsku
      exact absurd (by simp [hsku]) hc
  · rw [upsertOne_insert store r h]
    intro p hp hsku
    have hf : store.any (fun p => p.sku == r.sku) = false := Bool.eq_false_iff.mpr h
    rcases List.mem_append.mp hp with hp | hp
    · exact absurd (by simp [hsku]) (List.any_eq_false.mp hf p hp)
    · simp only [List.mem_singleton] at hp
      rw [hp]
      exact ⟨rfl, rfl⟩

theorem upsertOne_exists_key (store : Store) (r : Row) :
    ∃ p ∈ upsertOne store r, p.sku = r.sku := by
  by_cases h : store.any (fun p => p.sku == r.sku) = true
  · obtain ⟨q, hq, hqe⟩ := List.any_eq_true.mp h
    rw [upsertOne_update store r h]
    refine ⟨if q.sku == r.sku then { q with name := r.name, descr := r.descr } else q,
      List.mem_map_of_mem _ hq, ?_⟩
    rw [if_pos hqe]
    exact eq_of_beq hqe
  · rw [upsertOne_insert store r h]
    exact ⟨_, List.mem_append_right _ (List.mem_cons_self _ _), rfl⟩

theorem upsertOne_filter_other (store : Store) (r : Row) (k : String) (hk : r.sku ≠ k) :
    (upsertOne store r).filter (fun p => p.sku == k)
      = store.filter (fun p => p.sku == k) := by
  by_cases h : store.any (fun p => p.sku == r.sku) = true
  · rw [upsertOne_update store r h, List.filter_map]
    have hfe : (store.filter
        ((fun p : Product => p.sku == k) ∘
          (fun p => if p.sku == r.sku then { p with name := r.name, descr := r.descr } else p)))
        = store.filter (fun p => p.sku == k) := by
      apply List.filter_congr
      intro p _
      simp only [Function.comp_apply]
      rw [updateFn_sku]
    rw [hfe]
    apply (List.map_congr_left ?_).trans (List.map_id _)
    intro p hp
    have hpk : p.sku = k := by simpa using (List.mem_filter.mp hp).2
    rw [if_neg (by simp [hpk]; exact fun hh => hk hh.symm)]
    rfl
  · rw [upsertOne_insert store r h, List.filter_append]
    have : List.filter (fun p : Product => p.sku == k)
        [{ sku := r.sku, name := r.name, descr := r.descr, active := r.active }] = [] := by
      simp [hk]
    rw [this, List.append_nil]

/-! ## Fold of `upsertOne` over a deduplicated batch -/

theorem foldl_upsertOne_storeOk (dd : List Row) (store : Store) (hOk : StoreOk store)
    (hlow : ∀ r ∈ dd, lower r.sku = r.sku) : StoreOk (dd.foldl upsertOne store) := by
  induction dd generalizing store with
  | nil => exact hOk
  | cons r dd ih =>
    rw [List.foldl_cons]
    exact ih _ (upsertOne_storeOk store r hOk (hlow r (List.mem_cons_self _ _)))
      (fun q hq => hlow q (List.mem_cons_of_mem _ hq))

theorem foldl_upsertOne_mem_sku (dd : List Row) (store : Store) (k : String) :
    k ∈ (dd.foldl upsertOne store).map Product.sku ↔
      k ∈ store.map Product.sku ∨ k ∈ dd.map Row.sku := by
  induction dd generalizing store with
  | nil => simp
  | cons r dd ih =>
    rw [List.foldl_cons, ih, upsertOne_mem_sku]
    simp only [List.map_cons, List.mem_cons]
    tauto

theorem foldl_upsertOne_filter_other (dd : List Row) (store : Store) (k : String)
    (h : ∀ r ∈ dd, r.sku ≠ k) :
    (dd.foldl upsertOne store).filter (fun p => p.sku == k)
      = store.filter (fun p => p.sku == k) := by
  induction dd generalizing store with
  | nil => rfl
  | cons r dd ih =>
    rw [List.foldl_cons, ih _ (fun q hq => h q (List.mem_cons_of_mem _ hq)),
      upsertOne_filter_other store r k (h r (List.mem_cons_self _ _))]

theorem foldl_upsertOne_key_last (dd : List Row) (store : Store) (k : String) (rstar : Row)
    (hone : dd.filter (fun r => r.sku == k) = [rstar]) :
    (∀ p ∈ dd.foldl upsertOne store, p.sku = k →
        p.name = rstar.name ∧ p.descr = rstar.descr) ∧
      (∃ p ∈ dd.foldl upsertOne store, p.sku = k) := by
  induction dd generalizing store with
  | nil => simp at hone
  | cons r dd ih =>
    by_cases hr : r.sku = k
    · rw [List.filter_cons_of_pos (by simp [hr])] at hone
      have hre : r = rstar := (List.cons.injEq _ _ _ _ ▸ hone).1
      have hrest : dd.filter (fun q => q.sku == k) = [] :=
        (List.cons.injEq _ _ _ _ ▸ hone).2
      have hother : ∀ q ∈ dd, q.sku ≠ k := by
        intro q hq hqk
        exact absurd (by simp [hqk]) (List.filter_eq_nil_iff.mp hrest q hq)
      rw [List.foldl_cons]
      have hfe := foldl_upsertOne_filter_other dd (upsertOne store r) k hother
      constructor
      · intro p hp hpk
        have hpf : p ∈ (upsertOne store r).filter (fun p => p.sku == k) := by
          rw [← hfe]
          exact List.mem_filter.mpr ⟨hp, by simp [hpk]⟩
        have hp2 := List.mem_filter.mp hpf
        have := upsertOne_fields_set store r p hp2.1 (by rw [hpk, ← hr])
        rw [← hre]
        exact this
      · obtain ⟨p, hp, hpk⟩ := upsertOne_exists_key store r
        have hpf : p ∈ (upsertOne store r).filter (fun p => p.sku == k) :=
          List.mem_filter.mpr ⟨hp, by simp [hpk, hr]⟩
        rw [← hfe] at hpf
        exact ⟨p, (List.mem_filter.mp hpf).1, by simpa using (List.mem_filter.mp hpf).2⟩
    · rw [List.filter_cons_of_neg (by simp [hr])] at hone
      rw [List.foldl_cons]
      exact ih (upsertOne store r) hone

/-! ## `existingCount` lemmas -/

theorem existingCount_le (store : Store) (skus : List String) (hOk : StoreOk store) :
    existingCount store skus ≤ skus.length := by
  unfold existingCount
  have hsub : (store.filter (fun p => skus.contains (lower p.sku))).map Product.sku ⊆ skus := by
    intro k hk
    obtain ⟨p, hp, hpe⟩ := List.mem_map.mp hk
    have hmem : p ∈ store := (List.mem_filter.mp hp).1
    have hc : skus.contains (lower p.sku) = true := (List.mem_filter.mp hp).2
    rw [hOk.2 p hmem, hpe] at hc
    exact List.elem_iff.mp hc
  have hndf : ((store.filter (fun p => skus.contains (lower p.sku))).map Product.sku).Nodup :=
    List.Nodup.sublist (List.Sublist.map Product.sku (List.filter_sublist store)) hOk.1
  have := List.Subperm.length_le (List.subperm_of_subset hndf hsub)
  simpa using this

theorem existingCount_eq (store : Store) (skus : List String) (hOk : StoreOk store)
    (hnd : skus.Nodup) (hall : ∀ k ∈ skus, ∃ p ∈ store, p.sku = k) :
    existingCount store skus = skus.length := by
  refine Nat.le_antisymm (existingCount_le store skus hOk) ?_
  unfold existingCount
  have hsub : skus ⊆ (store.filter (fun p => skus.contains (lower p.sku))).map Product.sku := by
    intro k hk
    obtain ⟨p, hp, hpe⟩ := hall k hk
    have hcond : skus.contains (lower p.sku) = true := by
      rw [hOk.2 p hp, hpe]
      exact List.elem_iff.mpr hk
    exact List.mem_map.mpr ⟨p, List.mem_filter.mpr ⟨hp, hcond⟩, hpe⟩
  have := List.Subperm.length_le (List.subperm_of_subset hnd hsub)
  simpa using this

/-! ## `upsert_batch` lemmas -/

theorem upsert_batch_counts (ps : List Row) (store : Store) (hOk : StoreOk store) :
    (upsert_batch ps store).1.1 + (upsert_batch ps store).1.2 = (dedupBySku ps).length := by
  by_cases hps : ps.isEmpty
  · have : ps = [] := by cases ps <;> simp_all
    subst this
    rfl
  · unfold upsert_batch
    rw [if_neg hps]
    simp only []
    have hnd : ((dedupBySku ps).map Row.sku).Nodup := dedupBySku_sku_nodup ps
    have hle : existingCount store ((dedupBySku ps).map (fun p => p.sku))
        ≤ (dedupBySku ps).length := by
      have := existingCount_le store ((dedupBySku ps).map Row.sku) hOk
      simpa using this
    omega

theorem upsert_batch_le (ps : List Row) (store : Store) (hOk : StoreOk store) :
    (upsert_batch ps store).1.1 + (upsert_batch ps store).1.2 ≤ ps.length := by
  rw [upsert_batch_counts ps store hOk]
  exact dedupBySku_length_le ps

theorem upsert_batch_storeOk (ps : List Row) (store : Store) (hOk : StoreOk store)
    (hlow : ∀ r ∈ ps, lower r.sku = r.sku) : StoreOk (upsert_batch ps store).2 := by
  by_cases hps : ps.isEmpty
  · unfold upsert_batch
    rw [if_pos hps]
    exact hOk
  · unfold upsert_batch
    rw [if_neg hps]
    exact foldl_upsertOne_storeOk _ store hOk
      (fun r hr => hlow r (mem_dedupBySku ps r hr))

theorem upsert_batch_mem_sku (ps : List Row) (store : Store) (k : String) :
    k ∈ ((upsert_batch ps store).2.map Product.sku) ↔
      k ∈ store.map Product.sku ∨ ∃ r ∈ ps, r.sku = k := by
  by_cases hps : ps.isEmpty
  · have : ps = [] := by cases ps <;> simp_all
    subst this
    unfold upsert_batch
    simp
  · unfold upsert_batch
    rw [if_neg hps]
    simp only []
    rw [foldl_upsertOne_mem_sku, dedupBySku_sku_mem]

theorem upsert_batch_second (ps : List Row) (store : Store) (hOk : StoreOk store)
    (hnd : (ps.map Row.sku).Nodup)
    (hall : ∀ k ∈ ps.map Row.sku, ∃ p ∈ store, p.sku = k) :
    (upsert_batch ps store).1.1 = 0 ∧ (upsert_batch ps store).1.2 = ps.length := by
  by_cases hps : ps.isEmpty
  · have : ps = [] := by cases ps <;> simp_all
    subst this
    exact ⟨rfl, rfl⟩
  · unfold upsert_batch
    rw [if_neg hps]
    simp only []
    rw [dedupBySku_of_nodup ps hnd]
    have hex : existingCount store (ps.map (fun p => p.sku)) = ps.length := by
      have := existingCount_eq store (ps.map Row.sku) hOk hnd hall
      simpa using this
    constructor
    · simp only [hex]
      omega
    · exact hex

/-! ## Loop unfolding equations -/

theorem validCount_nil : validCount [] = 0 := rfl

theorem validCount_cons_valid (r : RawRow) (rs : List RawRow) (h : rowValid r = true) :
    validCount (r :: rs) = validCount rs + 1 := by
  simp [validCount, List.filter_cons_of_pos h]

theorem validCount_cons_invalid (r : RawRow) (rs : List RawRow) (h : rowValid r = false) :
    validCount (r :: rs) = validCount rs := by
  unfold validCount
  rw [List.filter_cons_of_neg (by simp [h])]

theorem flushBatch_fail (failAt : Option Nat) (brokerUp pp : Bool) (st : LoopSt)
    (h : failAt = some st.upserts) :
    flushBatch failAt brokerUp pp st =
      ({ st with evs := st.evs ++ [Ev.upsertCall st.batch], upserts := st.upserts + 1 },
       some dbErrMsg) := by
  unfold flushBatch
  rw [if_pos (by simp [h])]

theorem flushBatch_ok (failAt : Option Nat) (brokerUp pp : Bool) (st : LoopSt)
    (h : failAt ≠ some st.upserts) :
    flushBatch failAt brokerUp pp st = (flushOk pp brokerUp st, none) := by
  unfold flushBatch
  rw [if_neg (by simp [h])]

theorem flushOk_batch (pp b : Bool) (st : LoopSt) : (flushOk pp b st).batch = st.batch := by
  simp [flushOk]

theorem flushOk_total (pp b : Bool) (st : LoopSt) : (flushOk pp b st).total = st.total := by
  simp [flushOk]

theorem flushOk_upserts (pp b : Bool) (st : LoopSt) :
    (flushOk pp b st).upserts = st.upserts + 1 := by
  simp [flushOk]

theorem flushOk_created (pp b : Bool) (st : LoopSt) :
    (flushOk pp b st).created = st.created + (upsert_batch st.batch st.store).1.1 := by
  simp [flushOk]

theorem flushOk_updated (pp b : Bool) (st : LoopSt) :
    (flushOk pp b st).updated = st.updated + (upsert_batch st.batch st.store).1.2 := by
  simp [flushOk]

theorem flushOk_store (pp b : Bool) (st : LoopSt) :
    (flushOk pp b st).store = (upsert_batch st.batch st.store).2 := by
  simp [flushOk]

theorem flushOk_job (pp b : Bool) (st : LoopSt) :
    (flushOk pp b st).job =
      { st.job with processed_rows := st.total,
                    created_rows := st.created + (upsert_batch st.batch st.store).1.1,
                    updated_rows := st.updated + (upsert_batch st.batch st.store).1.2 } := by
  simp [flushOk]

theorem flushOk_evs (pp b : Bool) (st : LoopSt) :
    (flushOk pp b st).evs =
      st.evs ++ [Ev.upsertCall st.batch,
                 Ev.progressWrite st.total (st.created + (upsert_batch st.batch st.store).1.1)
                   (st.updated + (upsert_batch st.batch st.store).1.2)]
        ++ (if pp then
              [mkPublish b ⟨st.total, st.job.total_rows,
                st.created + (upsert_batch st.batch st.store).1.1,
                st.updated + (upsert_batch st.batch st.store).1.2, "processing", none⟩]
            else []) := by
  simp [flushOk]

theorem processLoop_nil (failAt : Option Nat) (brokerUp : Bool) (st : LoopSt) :
    processLoop failAt brokerUp [] st =
      match (if st.batch.isEmpty then (st, none) else flushBatch failAt brokerUp false st) with
      | (st', some e) => (st', some e)
      | (st', none) =>
        ({ st' with evs := st'.evs ++
            [mkPublish brokerUp ⟨st'.total, st'.total, st'.created, st'.updated,
              "completed", none⟩] }, none) := rfl

theorem processLoop_cons (failAt : Option Nat) (brokerUp : Bool) (r : RawRow)
    (rs : List RawRow) (st : LoopSt) :
    processLoop failAt brokerUp (r :: rs) st =
      if rowValid r then
        let st' := { st with batch := st.batch ++ [normalizeRow r], total := st.total + 1 }
        if BATCH_SIZE ≤ st'.batch.length then
          match flushBatch failAt brokerUp true st' with
          | (st'', some e) => (st'', some e)
          | (st'', none) => processLoop failAt brokerUp rs { st'' with batch := [] }
        else processLoop failAt brokerUp rs st'
      else processLoop failAt brokerUp rs st := rfl

/-! ## Healthy-run loop lemmas -/

theorem processLoop_none_basic (brokerUp : Bool) (rows : List RawRow) (st : LoopSt) :
    (processLoop none brokerUp rows st).2 = none ∧
    (processLoop none brokerUp rows st).1.total = st.total + validCount rows ∧
    (processLoop none brokerUp rows st).1.job.total_rows = st.job.total_rows := by
  induction rows generalizing st with
  | nil =>
    rw [processLoop_nil]
    by_cases hbe : st.batch.isEmpty
    · rw [if_pos hbe]
      simp [validCount_nil]
    · rw [if_neg hbe, flushBatch_ok none brokerUp false st (by simp)]
      simp [validCount_nil, flushOk_total, flushOk_job]
  | cons r rs ih =>
    rw [processLoop_cons]
    by_cases hv : rowValid r
    · rw [if_pos hv]
      simp only []
      by_cases hb : BATCH_SIZE ≤ st.batch.length + 1
      · rw [if_pos (by simpa using hb),
          flushBatch_ok none brokerUp true _ (by simp)]
        simp only []
        have := ih { flushOk true brokerUp
            { st with batch := st.batch ++ [normalizeRow r], total := st.total + 1 }
          with batch := [] }
        refine ⟨this.1, ?_, ?_⟩
        · rw [this.2.1]
          simp only [flushOk_total]
          rw [validCount_cons_valid r rs hv]
          omega
        · rw [this.2.2]
          simp only [flushOk_job]
      · rw [if_neg (by simpa using hb)]
        have := ih { st with batch := st.batch ++ [normalizeRow r], total := st.total + 1 }
        refine ⟨this.1, ?_, this.2.2⟩
        rw [this.2.1]
        simp only []
        rw [validCount_cons_valid r rs hv]
        omega
    · rw [if_neg hv]
      have := ih st
      refine ⟨this.1, ?_, this.2.2⟩
      rw [this.2.1, validCount_cons_invalid r rs (by simpa using hv)]

theorem mkPublish_eq (b : Bool) (s : Snap) : mkPublish b s = Ev.publishSnap s b := by
  cases b <;> rfl

theorem expectedBatchSizes_zero : expectedBatchSizes 0 = [] := by
  simp [expectedBatchSizes]

theorem expectedBatchSizes_small (n : Nat) (h1 : 0 < n) (h2 : n < BATCH_SIZE) :
    expectedBatchSizes n = [n] := by
  unfold expectedBatchSizes
  rw [Nat.div_eq_of_lt h2, Nat.mod_eq_of_lt h2, if_neg (by omega)]
  simp

theorem expectedBatchSizes_step (n : Nat) (h : BATCH_SIZE ≤ n) :
    expectedBatchSizes n = BATCH_SIZE :: expectedBatchSizes (n - BATCH_SIZE) := by
  have h1000 : 0 < BATCH_SIZE := by norm_num [BATCH_SIZE]
  conv_lhs => rw [show n = (n - BATCH_SIZE) + BATCH_SIZE by omega]
  unfold expectedBatchSizes
  rw [Nat.add_div_right _ h1000, Nat.add_mod_right, List.replicate_succ]
  rfl

/-- Upsert-call sizes and checkpoint count of a healthy run: one upsert
call and one checkpoint per full batch plus one for the final partial
batch. -/
theorem processLoop_none_sizes (brokerUp : Bool) (rows : List RawRow) (st : LoopSt)
    (hlt : st.batch.length < BATCH_SIZE) :
    upsertSizes (processLoop none brokerUp rows st).1.evs
      = upsertSizes st.evs ++ expectedBatchSizes (st.batch.length + validCount rows) ∧
    (checkpoints (processLoop none brokerUp rows st).1.evs).length
      = (checkpoints st.evs).length
        + (expectedBatchSizes (st.batch.length + validCount rows)).length := by
  induction rows generalizing st with
  | nil =>
    rw [processLoop_nil]
    by_cases hbe : st.batch.isEmpty
    · rw [if_pos hbe]
      have hb0 : st.batch.length = 0 := by
        cases h : st.batch
        · simp
        · rw [h] at hbe; simp at hbe
      simp [hb0, validCount_nil, expectedBatchSizes_zero, mkPublish_eq,
        upsertSizes, checkpoints, List.filterMap_append]
    · rw [if_neg hbe, flushBatch_ok none brokerUp false st (by simp)]
      have hb0 : 0 < st.batch.length := by
        cases h : st.batch
        · rw [h] at hbe; simp at hbe
        · simp [h]
      simp only []
      rw [validCount_nil, Nat.add_zero, expectedBatchSizes_small _ hb0 hlt]
      simp [flushOk_evs, mkPublish_eq, upsertSizes, checkpoints, List.filterMap_append]
  | cons r rs ih =>
    rw [processLoop_cons]
    by_cases hv : rowValid r
    · rw [if_pos hv]
      simp only []
      by_cases hb : BATCH_SIZE ≤ st.batch.length + 1
      · have hlen : st.batch.length + 1 = BATCH_SIZE := by omega
        rw [if_pos (by simpa using hb), flushBatch_ok none brokerUp true _ (by simp)]
        simp only []
        set st1 := { st with batch := st.batch ++ [normalizeRow r], total := st.total + 1 }
          with hst1
        set st2 := { flushOk true brokerUp st1 with batch := [] } with hst2
        have hih := ih st2 (by simp [hst2, BATCH_SIZE])
        rw [validCount_cons_valid r rs hv,
          show st.batch.length + (validCount rs + 1) = BATCH_SIZE + validCount rs by omega,
          expectedBatchSizes_step _ (by omega)]
        have harg : st2.batch.length + validCount rs = validCount rs := by simp [hst2]
        rw [harg] at hih
        have hevs2 : st2.evs = (flushOk true brokerUp st1).evs := by simp [hst2]
        have hb1 : st1.batch.length = BATCH_SIZE := by
          simp [hst1]
          omega
        refine ⟨?_, ?_⟩
        · rw [hih.1, hevs2, flushOk_evs]
          simp [mkPublish_eq, upsertSizes, List.filterMap_append, hst1]
          omega
        · rw [hih.2, hevs2, flushOk_evs]
          simp [mkPublish_eq, checkpoints, List.filterMap_append]
          omega
      · rw [if_neg (by simpa using hb)]
        set st1 := { st with batch := st.batch ++ [normalizeRow r], total := st.total + 1 }
          with hst1
        have hih := ih st1 (by simp [hst1]; omega)
        have harg : st1.batch.length + validCount rs
            = st.batch.length + validCount (r :: rs) := by
          rw [validCount_cons_valid r rs hv]
          simp [hst1]
          omega
        rw [harg] at hih
        have hevs1 : st1.evs = st.evs := by simp [hst1]
        rw [hevs1] at hih
        exact hih
    · rw [if_neg hv]
      have hih := ih st hlt
      rw [validCount_cons_invalid r rs (by simpa using hv)]
      exact hih

/-- The job-row `created_rows`/`updated_rows` always track the loop
counters (they are written together at every checkpoint). -/
theorem processLoop_job_counters (failAt : Option Nat) (brokerUp : Bool)
    (rows : List RawRow) (st : LoopSt)
    (h1 : st.job.created_rows = st.created) (h2 : st.job.updated_rows = st.updated) :
    (processLoop failAt brokerUp rows st).1.job.created_rows
        = (processLoop failAt brokerUp rows st).1.created ∧
      (processLoop failAt brokerUp rows st).1.job.updated_rows
        = (processLoop failAt brokerUp rows st).1.updated := by
  induction rows generalizing st with
  | nil =>
    rw [processLoop_nil]
    by_cases hbe : st.batch.isEmpty
    · rw [if_pos hbe]
      exact ⟨h1, h2⟩
    · rw [if_neg hbe]
      by_cases hfail : failAt = some st.upserts
      · rw [flushBatch_fail failAt brokerUp false st hfail]
        exact ⟨h1, h2⟩
      · rw [flushBatch_ok failAt brokerUp false st hfail]
        simp [flushOk_job, flushOk_created, flushOk_updated]
  | cons r rs ih =>
    rw [processLoop_cons]
    by_cases hv : rowValid r
    · rw [if_pos hv]
      simp only []
      by_cases hb : BATCH_SIZE ≤ st.batch.length + 1
      · rw [if_pos (by simpa using hb)]
        set st1 := { st with batch := st.batch ++ [normalizeRow r], total := st.total + 1 }
          with hst1
        by_cases hfail : failAt = some st1.upserts
        · rw [flushBatch_fail failAt brokerUp true st1 hfail]
          exact ⟨h1, h2⟩
        · rw [flushBatch_ok failAt brokerUp true st1 hfail]
          simp only []
          exact ih _ (by simp [flushOk_job, flushOk_created])
            (by simp [flushOk_job, flushOk_updated])
      · rw [if_neg (by simpa using hb)]
        exact ih _ h1 h2
    · rw [if_neg hv]
      exact ih _ h1 h2

/-- In a healthy run the final persisted `processed_rows` equals the
final `total` counter. -/
theorem processLoop_none_job_processed (brokerUp : Bool) (rows : List RawRow) (st : LoopSt)
    (h : st.job.processed_rows + st.batch.length = st.total) :
    (processLoop none brokerUp rows st).1.job.processed_rows
      = (processLoop none brokerUp rows st).1.total := by
  induction rows generalizing st with
  | nil =>
    rw [processLoop_nil]
    by_cases hbe : st.batch.isEmpty
    · rw [if_pos hbe]
      have hb0 : st.batch.length = 0 := by
        cases hc : st.batch
        · simp
        · rw [hc] at hbe; simp at hbe
      simp only []
      omega
    · rw [if_neg hbe, flushBatch_ok none brokerUp false st (by simp)]
      simp [flushOk_job, flushOk_total]
  | cons r rs ih =>
    rw [processLoop_cons]
    by_cases hv : rowValid r
    · rw [if_pos hv]
      simp only []
      by_cases hb : BATCH_SIZE ≤ st.batch.length + 1
      · rw [if_pos (by simpa using hb), flushBatch_ok none brokerUp true _ (by simp)]
        simp only []
        apply ih
        simp [flushOk_job, flushOk_total]
      · rw [if_neg (by simpa using hb)]
        apply ih
        simp
        omega
    · rw [if_neg hv]
      exact ih st h

/-- The loop never writes the job status. -/
theorem processLoop_statusWrites (failAt : Option Nat) (brokerUp : Bool)
    (rows : List RawRow) (st : LoopSt) :
    statusWrites (processLoop failAt brokerUp rows st).1.evs = statusWrites st.evs := by
  induction rows generalizing st with
  | nil =>
    rw [processLoop_nil]
    by_cases hbe : st.batch.isEmpty
    · rw [if_pos hbe]
      simp [statusWrites, List.filterMap_append, mkPublish_eq]
    · rw [if_neg hbe]
      by_cases hfail : failAt = some st.upserts
      · rw [flushBatch_fail failAt brokerUp false st hfail]
        simp [statusWrites, List.filterMap_append]
      · rw [flushBatch_ok failAt brokerUp false st hfail]
        simp [statusWrites, List.filterMap_append, mkPublish_eq, flushOk_evs]
  | cons r rs ih =>
    rw [processLoop_cons]
    by_cases hv : rowValid r
    · rw [if_pos hv]
      simp only []
      by_cases hb : BATCH_SIZE ≤ st.batch.length + 1
      · set st1 := { st with batch := st.batch ++ [normalizeRow r], total := st.total + 1 }
          with hst1
        rw [if_pos (by simpa using hb)]
        by_cases hfail : failAt = some st1.upserts
        · rw [flushBatch_fail failAt brokerUp true st1 hfail]
          simp [statusWrites, List.filterMap_append]
        · rw [flushBatch_ok failAt brokerUp true st1 hfail]
          simp only []
          rw [ih]
          simp [statusWrites, List.filterMap_append, mkPublish_eq, flushOk_evs]
      · rw [if_neg (by simpa using hb)]
        exact ih _
    · rw [if_neg hv]
      exact ih st

/-- A healthy run ends with the terminal `completed` publish carrying the
final counters, and that publish is its last event. -/
theorem processLoop_none_final (brokerUp : Bool) (rows : List RawRow) (st : LoopSt) :
    ∃ l, (processLoop none brokerUp rows st).1.evs
      = l ++ [Ev.publishSnap
          ⟨(processLoop none brokerUp rows st).1.total,
           (processLoop none brokerUp rows st).1.total,
           (processLoop none brokerUp rows st).1.created,
           (processLoop none brokerUp rows st).1.updated, "completed", none⟩ brokerUp] := by
  induction rows generalizing st with
  | nil =>
    rw [processLoop_nil]
    by_cases hbe : st.batch.isEmpty
    · rw [if_pos hbe]
      exact ⟨st.evs, by simp [mkPublish_eq]⟩
    · rw [if_neg hbe, flushBatch_ok none brokerUp false st (by simp)]
      exact ⟨(flushOk false brokerUp st).evs, by simp [mkPublish_eq]⟩
  | cons r rs ih =>
    rw [processLoop_cons]
    by_cases hv : rowValid r
    · rw [if_pos hv]
      simp only []
      by_cases hb : BATCH_SIZE ≤ st.batch.length + 1
      · rw [if_pos (by simpa using hb), flushBatch_ok none brokerUp true _ (by simp)]
        simp only []
        exact ih _
      · rw [if_neg (by simpa using hb)]
        exact ih _
    · rw [if_neg hv]
      exact ih st

theorem validNorm_nil : validNorm [] = [] := rfl

theorem validNorm_cons_valid (r : RawRow) (rs : List RawRow) (h : rowValid r = true) :
    validNorm (r :: rs) = normalizeRow r :: validNorm rs := by
  unfold validNorm
  rw [List.filter_cons_of_pos h, List.map_cons]

theorem validNorm_cons_invalid (r : RawRow) (rs : List RawRow) (h : rowValid r = false) :
    validNorm (r :: rs) = validNorm rs := by
  unfold validNorm
  rw [List.filter_cons_of_neg (by simp [h])]

theorem validSkus_nil : validSkus [] = [] := rfl

theorem validSkus_cons_valid (r : RawRow) (rs : List RawRow) (h : rowValid r = true) :
    validSkus (r :: rs) = (normalizeRow r).sku :: validSkus rs := by
  unfold validSkus
  rw [List.filter_cons_of_pos h, List.map_cons]

theorem validSkus_cons_invalid (r : RawRow) (rs : List RawRow) (h : rowValid r = false) :
    validSkus (r :: rs) = validSkus rs := by
  unfold validSkus
  rw [List.filter_cons_of_neg (by simp [h])]

theorem checkpoints_append (l1 l2 : List Ev) :
    checkpoints (l1 ++ l2) = checkpoints l1 ++ checkpoints l2 := by
  unfold checkpoints
  exact List.filterMap_append _ _ _

theorem checkpoints_flushOk (pp b : Bool) (st : LoopSt) :
    checkpoints (flushOk pp b st).evs
      = checkpoints st.evs
        ++ [(st.total, st.created + (upsert_batch st.batch st.store).1.1,
             st.updated + (upsert_batch st.batch st.store).1.2)] := by
  rw [flushOk_evs, checkpoints_append, checkpoints_append]
  cases pp <;> simp [checkpoints, mkPublish_eq]

theorem checkpoints_append_publish (evs : List Ev) (b : Bool) (s : Snap) :
    checkpoints (evs ++ [mkPublish b s]) = checkpoints evs := by
  rw [mkPublish_eq, checkpoints_append]
  simp [checkpoints]

theorem checkpoints_append_upsert (evs : List Ev) (bt : List Row) :
    checkpoints (evs ++ [Ev.upsertCall bt]) = checkpoints evs := by
  rw [checkpoints_append]
  simp [checkpoints]

/-- Checkpoint inequality: whatever the failure mode, every persisted
checkpoint satisfies `created + updated <= processed`, and so does the
job row at exit. -/
theorem processLoop_checkpoints_le (failAt : Option Nat) (brokerUp : Bool)
    (rows : List RawRow) (st : LoopSt)
    (hOk : StoreOk st.store)
    (hlow : ∀ r ∈ st.batch, lower r.sku = r.sku)
    (hinv : st.created + st.updated + st.batch.length ≤ st.total)
    (hcps : ∀ cp ∈ checkpoints st.evs, cp.2.1 + cp.2.2 ≤ cp.1)
    (hjob : st.job.created_rows + st.job.updated_rows ≤ st.job.processed_rows) :
    (∀ cp ∈ checkpoints (processLoop failAt brokerUp rows st).1.evs,
        cp.2.1 + cp.2.2 ≤ cp.1) ∧
      (processLoop failAt brokerUp rows st).1.job.created_rows
          + (processLoop failAt brokerUp rows st).1.job.updated_rows
        ≤ (processLoop failAt brokerUp rows st).1.job.processed_rows := by
  induction rows generalizing st with
  | nil =>
    rw [processLoop_nil]
    by_cases hbe : st.batch.isEmpty
    · rw [if_pos hbe]
      refine ⟨?_, hjob⟩
      intro cp hcp
      rw [checkpoints_append_publish] at hcp
      exact hcps cp hcp
    · rw [if_neg hbe]
      by_cases hfail : failAt = some st.upserts
      · rw [flushBatch_fail failAt brokerUp false st hfail]
        refine ⟨?_, hjob⟩
        intro cp hcp
        rw [checkpoints_append_upsert] at hcp
        exact hcps cp hcp
      · rw [flushBatch_ok failAt brokerUp false st hfail]
        have hcu := upsert_batch_le st.batch st.store hOk
        refine ⟨?_, ?_⟩
        · intro cp hcp
          rw [checkpoints_append_publish, checkpoints_flushOk] at hcp
          rcases List.mem_append.mp hcp with h | h
          · exact hcps cp h
          · rcases List.mem_cons.mp h with h | h
            · subst h
              simp only []
              omega
            · simp at h
        · rw [flushOk_job]
          simp only []
          omega
  | cons r rs ih =>
    rw [processLoop_cons]
    by_cases hv : rowValid r
    · rw [if_pos hv]
      simp only []
      by_cases hb : BATCH_SIZE ≤ st.batch.length + 1
      · rw [if_pos (by simpa using hb)]
        set st1 := { st with batch := st.batch ++ [normalizeRow r], total := st.total + 1 }
          with hst1
        have he1 : st1.evs = st.evs := by rw [hst1]
        have hbatch1 : st1.batch = st.batch ++ [normalizeRow r] := by rw [hst1]
        have htot1 : st1.total = st.total + 1 := by rw [hst1]
        have hsto1 : st1.store = st.store := by rw [hst1]
        have hcre1 : st1.created = st.created := by rw [hst1]
        have hupd1 : st1.updated = st.updated := by rw [hst1]
        have hjob1 : st1.job = st.job := by rw [hst1]
        have hlow1 : ∀ q ∈ st1.batch, lower q.sku = q.sku := by
          rw [hbatch1]
          intro q hq
          rcases List.mem_append.mp hq with h | h
          · exact hlow q h
          · rcases List.mem_cons.mp h with h | h
            · rw [h]
              exact normalizeRow_sku_lower r
            · simp at h
        have hcu := upsert_batch_le st1.batch st1.store (by rw [hsto1]; exact hOk)
        have hbl1 : st1.batch.length = st.batch.length + 1 := by
          rw [hbatch1]
          simp
        have hcu2 : (upsert_batch (st.batch ++ [normalizeRow r]) st.store).1.1
            + (upsert_batch (st.batch ++ [normalizeRow r]) st.store).1.2
            ≤ st.batch.length + 1 := by
          rw [hbl1, hbatch1, hsto1] at hcu
          exact hcu
        by_cases hfail : failAt = some st1.upserts
        · rw [flushBatch_fail failAt brokerUp true st1 hfail]
          refine ⟨?_, hjob⟩
          intro cp hcp
          have hcp2 : cp ∈ checkpoints (st1.evs ++ [Ev.upsertCall st1.batch]) := hcp
          rw [checkpoints_append_upsert, he1] at hcp2
          exact hcps cp hcp2
        · rw [flushBatch_ok failAt brokerUp true st1 hfail]
          simp only []
          set st2 := { flushOk true brokerUp st1 with batch := [] } with hst2
          have h2store : st2.store = (upsert_batch st1.batch st1.store).2 := by
            rw [hst2, flushOk_store]
          have h2batch : st2.batch = [] := by rw [hst2]
          have h2created : st2.created = st1.created + (upsert_batch st1.batch st1.store).1.1 := by
            rw [hst2, flushOk_created]
          have h2updated : st2.updated = st1.updated + (upsert_batch st1.batch st1.store).1.2 := by
            rw [hst2, flushOk_updated]
          have h2total : st2.total = st1.total := by rw [hst2, flushOk_total]
          have h2job : st2.job = (flushOk true brokerUp st1).job := by rw [hst2]
          have h2evs : st2.evs = (flushOk true brokerUp st1).evs := by rw [hst2]
          apply ih st2
          · rw [h2store]
            exact upsert_batch_storeOk st1.batch st1.store (by rw [hsto1]; exact hOk) hlow1
          · rw [h2batch]
            simp
          · rw [h2created, h2updated, h2batch, h2total, hcre1, hupd1, htot1, hbatch1, hsto1]
            simp only [List.length_nil]
            omega
          · intro cp hcp
            rw [h2evs, checkpoints_flushOk, he1] at hcp
            rcases List.mem_append.mp hcp with h | h
            · exact hcps cp h
            · rcases List.mem_cons.mp h with h | h
              · subst h
                simp only []
                omega
              · simp at h
          · rw [h2job, flushOk_job]
            simp only []
            omega
      · rw [if_neg (by simpa using hb)]
        apply ih
        · exact hOk
        · intro q hq
          simp only [] at hq
          rcases List.mem_append.mp hq with h | h
          · exact hlow q h
          · rcases List.mem_cons.mp h with h | h
            · rw [h]
              exact normalizeRow_sku_lower r
            · simp at h
        · simp only [List.length_append, List.length_cons, List.length_nil]
          omega
        · exact hcps
        · exact hjob
    · rw [if_neg hv]
      exact ih st hOk hlow hinv hcps hjob

/-- Store-key containment for a healthy run: every key present initially,
pending in the batch, or among the remaining valid rows, is present in
the final store. -/
theorem processLoop_none_keys (brokerUp : Bool) (rows : List RawRow) (st : LoopSt)
    (k : String)
    (hk : k ∈ st.store.map Product.sku ∨ (∃ r ∈ st.batch, r.sku = k) ∨
          (∃ r ∈ rows, rowValid r = true ∧ (normalizeRow r).sku = k)) :
    k ∈ (processLoop none brokerUp rows st).1.store.map Product.sku := by
  induction rows generalizing st with
  | nil =>
    rw [processLoop_nil]
    by_cases hbe : st.batch.isEmpty
    · rw [if_pos hbe]
      have hb0 : st.batch = [] := by
        cases hc : st.batch
        · rfl
        · rw [hc] at hbe; simp at hbe
      simp only []
      rcases hk with h | h | h
      · exact h
      · rw [hb0] at h
        simp at h
      · simp at h
    · rw [if_neg hbe, flushBatch_ok none brokerUp false st (by simp)]
      simp only [flushOk_store]
      rw [upsert_batch_mem_sku]
      rcases hk with h | h | h
      · exact Or.inl h
      · exact Or.inr h
      · simp at h
  | cons r rs ih =>
    rw [processLoop_cons]
    by_cases hv : rowValid r
    · rw [if_pos hv]
      simp only []
      by_cases hb : BATCH_SIZE ≤ st.batch.length + 1
      · rw [if_pos (by simpa using hb), flushBatch_ok none brokerUp true _ (by simp)]
        simp only []
        apply ih
        rcases hk with h | h | h
        · left
          simp only [flushOk_store]
          rw [upsert_batch_mem_sku]
          exact Or.inl h
        · left
          simp only [flushOk_store]
          rw [upsert_batch_mem_sku]
          exact Or.inr ⟨h.choose, List.mem_append_left _ h.choose_spec.1, h.choose_spec.2⟩
        · obtain ⟨q, hq, hqv, hqk⟩ := h
          rcases List.mem_cons.mp hq with hh | hh
          · left
            simp only [flushOk_store]
            rw [upsert_batch_mem_sku]
            refine Or.inr ⟨normalizeRow r, ?_, by rw [← hh]; exact hqk⟩
            exact List.mem_append_right _ (List.mem_cons_self _ _)
          · right; right
            exact ⟨q, hh, hqv, hqk⟩
      · rw [if_neg (by simpa using hb)]
        apply ih
        rcases hk with h | h | h
        · exact Or.inl h
        · right; left
          exact ⟨h.choose, List.mem_append_left _ h.choose_spec.1, h.choose_spec.2⟩
        · obtain ⟨q, hq, hqv, hqk⟩ := h
          rcases List.mem_cons.mp hq with hh | hh
          · right; left
            refine ⟨normalizeRow r, ?_, by rw [← hh]; exact hqk⟩
            exact List.mem_append_right _ (List.mem_cons_self _ _)
          · right; right
            exact ⟨q, hh, hqv, hqk⟩
    · rw [if_neg hv]
      apply ih
      rcases hk with h | h | h
      · exact Or.inl h
      · exact Or.inr (Or.inl h)
      · obtain ⟨q, hq, hqv, hqk⟩ := h
        rcases List.mem_cons.mp hq with hh | hh
        · rw [hh] at hqv
          rw [hqv] at hv
          simp at hv
        · exact Or.inr (Or.inr ⟨q, hh, hqv, hqk⟩)

/-- Second-run counting: if every pending or upcoming key is already in
the store and keys are pairwise distinct, a healthy run creates nothing
and updates one record per row. -/
theorem processLoop_none_second (brokerUp : Bool) (rows : List RawRow) (st : LoopSt)
    (hOk : StoreOk st.store)
    (hlow : ∀ q ∈ st.batch, lower q.sku = q.sku)
    (hnd : (st.batch.map Row.sku ++ validSkus rows).Nodup)
    (hall : ∀ k ∈ st.batch.map Row.sku ++ validSkus rows, ∃ p ∈ st.store, p.sku = k) :
    (processLoop none brokerUp rows st).1.created = st.created ∧
    (processLoop none brokerUp rows st).1.updated
      = st.updated + st.batch.length + validCount rows := by
  induction rows generalizing st with
  | nil =>
    rw [processLoop_nil]
    by_cases hbe : st.batch.isEmpty
    · rw [if_pos hbe]
      have hb0 : st.batch.length = 0 := by
        cases hc : st.batch
        · simp
        · rw [hc] at hbe; simp at hbe
      refine ⟨rfl, ?_⟩
      rw [validCount_nil, hb0]
      show st.updated = st.updated + 0 + 0
      omega
    · rw [if_neg hbe, flushBatch_ok none brokerUp false st (by simp)]
      rw [validSkus_nil, List.append_nil] at hnd hall
      have hsec := upsert_batch_second st.batch st.store hOk hnd hall
      simp only [flushOk_created, flushOk_updated]
      rw [validCount_nil, hsec.1, hsec.2]
      omega
  | cons r rs ih =>
    rw [processLoop_cons]
    by_cases hv : rowValid r
    · rw [if_pos hv]
      simp only []
      rw [validSkus_cons_valid r rs hv] at hnd hall
      rw [List.append_cons] at hnd hall
      by_cases hb : BATCH_SIZE ≤ st.batch.length + 1
      · rw [if_pos (by simpa using hb), flushBatch_ok none brokerUp true _ (by simp)]
        simp only []
        set st1 := { st with batch := st.batch ++ [normalizeRow r], total := st.total + 1 }
          with hst1
        have hbatch1 : st1.batch = st.batch ++ [normalizeRow r] := by rw [hst1]
        have hsto1 : st1.store = st.store := by rw [hst1]
        have hmap1 : st1.batch.map Row.sku = st.batch.map Row.sku ++ [(normalizeRow r).sku] := by
          rw [hbatch1]
          simp
        have hlow1 : ∀ q ∈ st1.batch, lower q.sku = q.sku := by
          rw [hbatch1]
          intro q hq
          rcases List.mem_append.mp hq with h | h
          · exact hlow q h
          · rcases List.mem_cons.mp h with h | h
            · rw [h]
              exact normalizeRow_sku_lower r
            · simp at h
        have hnd1 : (st1.batch.map Row.sku).Nodup := by
          rw [hmap1]
          exact (List.nodup_append.mp hnd).1
        have hall1 : ∀ k ∈ st1.batch.map Row.sku, ∃ p ∈ st1.store, p.sku = k := by
          rw [hmap1, hsto1]
          intro k hk
          exact hall k (List.mem_append_left _ hk)
        have hsec := upsert_batch_second st1.batch st1.store (by rw [hsto1]; exact hOk)
          hnd1 hall1
        set st2 := { flushOk true brokerUp st1 with batch := [] } with hst2
        have h2store : st2.store = (upsert_batch st1.batch st1.store).2 := by
          rw [hst2, flushOk_store]
        have h2batch : st2.batch = [] := by rw [hst2]
        have h2created : st2.created = st1.created + (upsert_batch st1.batch st1.store).1.1 := by
          rw [hst2, flushOk_created]
        have h2updated : st2.updated = st1.updated + (upsert_batch st1.batch st1.store).1.2 := by
          rw [hst2, flushOk_updated]
        have hc1 : st1.created = st.created := by rw [hst1]
        have hih := ih st2 ?_ ?_ ?_ ?_
        · refine ⟨?_, ?_⟩
          · rw [hih.1, h2created, hsec.1, hc1]
            omega
          · rw [hih.2, h2updated, hsec.2, h2batch]
            have hlen1 : st1.batch.length = st.batch.length + 1 := by
              rw [hbatch1]
              simp
            have hu1 : st1.updated = st.updated := by rw [hst1]
            rw [hlen1, hu1, validCount_cons_valid r rs hv]
            simp only [List.length_nil]
            omega
        · rw [h2store]
          exact upsert_batch_storeOk st1.batch st1.store (by rw [hsto1]; exact hOk) hlow1
        · rw [h2batch]
          simp
        · rw [h2batch]
          simp only [List.map_nil, List.nil_append]
          exact ((List.nodup_append.mp hnd).2).1
        · rw [h2batch]
          simp only [List.map_nil, List.nil_append]
          intro k hk
          have hk2 : k ∈ st.batch.map Row.sku ++ [(normalizeRow r).sku] ++ validSkus rs :=
            List.mem_append_right _ hk
          obtain ⟨p, hp, hpk⟩ := hall k hk2
          have hmem : k ∈ (upsert_batch st1.batch st1.store).2.map Product.sku := by
            rw [upsert_batch_mem_sku]
            left
            rw [hsto1]
            exact List.mem_map.mpr ⟨p, hp, hpk⟩
          obtain ⟨q, hq, hqk⟩ := List.mem_map.mp hmem
          rw [h2store]
          exact ⟨q, hq, hqk⟩
      · rw [if_neg (by simpa using hb)]
        set st1 := { st with batch := st.batch ++ [normalizeRow r], total := st.total + 1 }
          with hst1
        have hbatch1 : st1.batch = st.batch ++ [normalizeRow r] := by rw [hst1]
        have hmap1 : st1.batch.map Row.sku = st.batch.map Row.sku ++ [(normalizeRow r).sku] := by
          rw [hbatch1]
          simp
        have hc1 : st1.created = st.created := by rw [hst1]
        have hih := ih st1 hOk ?_ ?_ ?_
        · refine ⟨?_, ?_⟩
          · rw [hih.1, hc1]
          · rw [hih.2]
            have hlen1 : st1.batch.length = st.batch.length + 1 := by
              rw [hbatch1]
              simp
            have hu1 : st1.updated = st.updated := by rw [hst1]
            rw [hlen1, hu1, validCount_cons_valid r rs hv]
            omega
        · rw [hbatch1]
          intro q hq
          rcases List.mem_append.mp hq with h | h
          · exact hlow q h
          · rcases List.mem_cons.mp h with h | h
            · rw [h]
              exact normalizeRow_sku_lower r
            · simp at h
        · rw [hmap1]
          exact hnd
        · rw [hmap1]
          exact hall
    · rw [if_neg hv]
      rw [validSkus_cons_invalid r rs (by simpa using hv)] at hnd hall
      have hih := ih st hOk hlow hnd hall
      rw [validCount_cons_invalid r rs (by simpa using hv)]
      exact hih

/-- Failure mid-run: if the `k`-th upsert commit is reached and raises,
the loop propagates the error and the job row keeps exactly the progress
of the `k` batches whose commit succeeded (each a full batch). -/
theorem processLoop_fail (brokerUp : Bool) (k : Nat) (rows : List RawRow) (st : LoopSt)
    (hup : st.upserts ≤ k)
    (hbound : k < st.upserts + numBatchesOf (st.batch.length + validCount rows))
    (hblen : st.batch.length < BATCH_SIZE)
    (hjp : st.job.processed_rows = BATCH_SIZE * st.upserts)
    (htotal : st.total = BATCH_SIZE * st.upserts + st.batch.length) :
    (processLoop (some k) brokerUp rows st).2 = some dbErrMsg ∧
    (processLoop (some k) brokerUp rows st).1.job.processed_rows = BATCH_SIZE * k := by
  induction rows generalizing st with
  | nil =>
    rw [processLoop_nil]
    rw [validCount_nil] at hbound
    have hblen9 : st.batch.length < 1000 := by simpa [BATCH_SIZE] using hblen
    have hbound9 : k < st.upserts + (st.batch.length + 0 + 999) / 1000 := by
      simpa [numBatchesOf, BATCH_SIZE] using hbound
    have hlen : 0 < st.batch.length := by omega
    have hk : k = st.upserts := by omega
    have hbne : ¬ st.batch.isEmpty = true := by
      cases hc : st.batch
      · rw [hc] at hlen
        simp at hlen
      · simp [hc]
    rw [if_neg hbne, flushBatch_fail (some k) brokerUp false st (by rw [hk])]
    refine ⟨rfl, ?_⟩
    show st.job.processed_rows = BATCH_SIZE * k
    rw [hjp, hk]
  | cons r rs ih =>
    rw [processLoop_cons]
    by_cases hv : rowValid r
    · rw [if_pos hv]
      simp only []
      rw [validCount_cons_valid r rs hv] at hbound
      by_cases hb : BATCH_SIZE ≤ st.batch.length + 1
      · rw [if_pos (by simpa using hb)]
        set st1 := { st with batch := st.batch ++ [normalizeRow r], total := st.total + 1 }
          with hst1
        have hupserts1 : st1.upserts = st.upserts := by rw [hst1]
        have hjob1 : st1.job = st.job := by rw [hst1]
        have htot1 : st1.total = st.total + 1 := by rw [hst1]
        have hbl1 : st1.batch.length = st.batch.length + 1 := by
          rw [hst1]
          simp
        by_cases hkf : k = st1.upserts
        · rw [flushBatch_fail (some k) brokerUp true st1 (by rw [hkf])]
          refine ⟨rfl, ?_⟩
          show st1.job.processed_rows = BATCH_SIZE * k
          rw [hjob1, hjp, hkf, hupserts1]
        · rw [flushBatch_ok (some k) brokerUp true st1 (by simpa using hkf)]
          simp only []
          set st2 := { flushOk true brokerUp st1 with batch := [] } with hst2
          have h2batch : st2.batch = [] := by rw [hst2]
          have h2upserts : st2.upserts = st1.upserts + 1 := by rw [hst2, flushOk_upserts]
          have h2total : st2.total = st1.total := by rw [hst2, flushOk_total]
          have h2jobp : st2.job.processed_rows = st1.total := by
            rw [hst2, flushOk_job]
          have hb9 : 1000 ≤ st.batch.length + 1 := by simpa [BATCH_SIZE] using hb
          have hblen9 : st.batch.length < 1000 := by simpa [BATCH_SIZE] using hblen
          have hbound9 : k < st.upserts
              + (st.batch.length + (validCount rs + 1) + 999) / 1000 := by
            simpa [numBatchesOf, BATCH_SIZE] using hbound
          have hkne : ¬ k = st.upserts := by
            rw [hupserts1] at hkf
            exact hkf
          apply ih st2
          · rw [h2upserts, hupserts1]
            omega
          · rw [h2upserts, hupserts1, h2batch]
            simp only [List.length_nil, numBatchesOf, BATCH_SIZE]
            omega
          · rw [h2batch]
            simp [BATCH_SIZE]
          · rw [h2jobp, htot1, htotal, h2upserts, hupserts1]
            simp only [BATCH_SIZE]
            omega
          · rw [h2total, htot1, htotal, h2upserts, hupserts1, h2batch]
            simp only [List.length_nil, BATCH_SIZE]
            omega
      · rw [if_neg (by simpa using hb)]
        set st1 := { st with batch := st.batch ++ [normalizeRow r], total := st.total + 1 }
          with hst1
        have hupserts1 : st1.upserts = st.upserts := by rw [hst1]
        have hjob1 : st1.job = st.job := by rw [hst1]
        have htot1 : st1.total = st.total + 1 := by rw [hst1]
        have hbl1 : st1.batch.length = st.batch.length + 1 := by
          rw [hst1]
          simp
        apply ih st1
        · rw [hupserts1]
          exact hup
        · rw [hupserts1, hbl1]
          simp only [numBatchesOf, BATCH_SIZE] at hbound ⊢
          omega
        · rw [hbl1]
          have hb9 : ¬ (1000 ≤ st.batch.length + 1) := by simpa [BATCH_SIZE] using hb
          simp only [BATCH_SIZE]
          omega
        · rw [hjob1, hupserts1]
          exact hjp
        · rw [htot1, htotal, hupserts1, hbl1]
          omega
    · rw [if_neg hv]
      rw [validCount_cons_invalid r rs (by simpa using hv)] at hbound
      exact ih st hup hbound hblen hjp htotal

theorem emittedRows_append (l1 l2 : List Ev) :
    emittedRows (l1 ++ l2) = emittedRows l1 ++ emittedRows l2 := by
  unfold emittedRows
  rw [List.filterMap_append, List.flatten_append]

theorem emittedRows_flushOk (pp b : Bool) (st : LoopSt) :
    emittedRows (flushOk pp b st).evs = emittedRows st.evs ++ st.batch := by
  rw [flushOk_evs, emittedRows_append, emittedRows_append]
  cases pp <;> simp [emittedRows, mkPublish_eq]

theorem emittedRows_append_publish (evs : List Ev) (b : Bool) (s : Snap) :
    emittedRows (evs ++ [mkPublish b s]) = emittedRows evs := by
  rw [mkPublish_eq, emittedRows_append]
  simp [emittedRows]

/-- The rows a healthy run hands to `upsert_batch` are exactly the
pending batch followed by the normalized valid rows, in file order. -/
theorem processLoop_none_emitted (brokerUp : Bool) (rows : List RawRow) (st : LoopSt) :
    emittedRows (processLoop none brokerUp rows st).1.evs
      = emittedRows st.evs ++ st.batch ++ validNorm rows := by
  induction rows generalizing st with
  | nil =>
    rw [processLoop_nil]
    by_cases hbe : st.batch.isEmpty
    · rw [if_pos hbe]
      have hb0 : st.batch = [] := by
        cases hc : st.batch
        · rfl
        · rw [hc] at hbe; simp at hbe
      show emittedRows (st.evs ++ [mkPublish brokerUp _]) = _
      rw [emittedRows_append_publish, hb0, validNorm_nil, List.append_nil, List.append_nil]
    · rw [if_neg hbe, flushBatch_ok none brokerUp false st (by simp)]
      show emittedRows ((flushOk false brokerUp st).evs ++ [mkPublish brokerUp _]) = _
      rw [emittedRows_append_publish, emittedRows_flushOk, validNorm_nil, List.append_nil]
  | cons r rs ih =>
    rw [processLoop_cons]
    by_cases hv : rowValid r
    · rw [if_pos hv]
      simp only []
      rw [validNorm_cons_valid r rs hv]
      by_cases hb : BATCH_SIZE ≤ st.batch.length + 1
      · rw [if_pos (by simpa using hb), flushBatch_ok none brokerUp true _ (by simp)]
        simp only []
        set st1 := { st with batch := st.batch ++ [normalizeRow r], total := st.total + 1 }
          with hst1
        set st2 := { flushOk true brokerUp st1 with batch := [] } with hst2
        have h2evs : st2.evs = (flushOk true brokerUp st1).evs := by rw [hst2]
        have h2batch : st2.batch = [] := by rw [hst2]
        rw [ih st2, h2evs, h2batch, emittedRows_flushOk]
        have hb1 : st1.batch = st.batch ++ [normalizeRow r] := by rw [hst1]
        have he1 : st1.evs = st.evs := by rw [hst1]
        rw [hb1, he1]
        simp
      · rw [if_neg (by simpa using hb)]
        set st1 := { st with batch := st.batch ++ [normalizeRow r], total := st.total + 1 }
          with hst1
        have hb1 : st1.batch = st.batch ++ [normalizeRow r] := by rw [hst1]
        have he1 : st1.evs = st.evs := by rw [hst1]
        rw [ih st1, hb1, he1]
        simp
    · rw [if_neg hv]
      rw [validNorm_cons_invalid r rs (by simpa using hv)]
      exact ih st

theorem deliveredSnaps_append (l1 l2 : List Ev) :
    deliveredSnaps (l1 ++ l2) = deliveredSnaps l1 ++ deliveredSnaps l2 := by
  unfold deliveredSnaps
  exact List.filterMap_append _ _ _

theorem deliveredSnaps_flushOk_true (pp : Bool) (st : LoopSt) :
    deliveredSnaps (flushOk pp true st).evs
      = deliveredSnaps st.evs
        ++ (if pp then
              [⟨st.total, st.job.total_rows,
                st.created + (upsert_batch st.batch st.store).1.1,
                st.updated + (upsert_batch st.batch st.store).1.2, "processing", none⟩]
            else []) := by
  rw [flushOk_evs, deliveredSnaps_append, deliveredSnaps_append]
  cases pp <;> simp [deliveredSnaps, mkPublish_eq]

/-- Snapshot stream of a healthy run with the broker up: some `processing`
snapshots with non-decreasing `processed` and the `total` field frozen at
`job.total_rows`, then the terminal `completed` snapshot carrying the
final counters. -/
theorem processLoop_none_snaps (rows : List RawRow) (st : LoopSt)
    (hprev : ∀ s ∈ deliveredSnaps st.evs,
        s.status = "processing" ∧ s.total = st.job.total_rows ∧ s.processed ≤ st.total)
    (hpar : List.Pairwise (fun a b => a.processed ≤ b.processed) (deliveredSnaps st.evs)) :
    ∃ L, deliveredSnaps (processLoop none true rows st).1.evs
        = L ++ [⟨(processLoop none true rows st).1.total,
                (processLoop none true rows st).1.total,
                (processLoop none true rows st).1.created,
                (processLoop none true rows st).1.updated, "completed", none⟩]
      ∧ (∀ s ∈ L, s.status = "processing" ∧ s.total = st.job.total_rows
            ∧ s.processed ≤ (processLoop none true rows st).1.total)
      ∧ List.Pairwise (fun a b => a.processed ≤ b.processed) L := by
  induction rows generalizing st with
  | nil =>
    rw [processLoop_nil]
    by_cases hbe : st.batch.isEmpty
    · rw [if_pos hbe]
      refine ⟨deliveredSnaps st.evs, ?_, ?_, hpar⟩
      · show deliveredSnaps (st.evs ++ [mkPublish true _]) = _
        rw [deliveredSnaps_append, mkPublish_eq]
        simp [deliveredSnaps]
      · intro s hs
        exact hprev s hs
    · rw [if_neg hbe, flushBatch_ok none true false st (by simp)]
      refine ⟨deliveredSnaps st.evs, ?_, ?_, hpar⟩
      · show deliveredSnaps ((flushOk false true st).evs ++ [mkPublish true _]) = _
        rw [deliveredSnaps_append, mkPublish_eq, deliveredSnaps_flushOk_true]
        simp [deliveredSnaps, flushOk_total, flushOk_created, flushOk_updated]
      · intro s hs
        refine ⟨(hprev s hs).1, (hprev s hs).2.1, ?_⟩
        have := (hprev s hs).2.2
        simp only [flushOk_total]
        exact this
  | cons r rs ih =>
    rw [processLoop_cons]
    by_cases hv : rowValid r
    · rw [if_pos hv]
      simp only []
      by_cases hb : BATCH_SIZE ≤ st.batch.length + 1
      · rw [if_pos (by simpa using hb), flushBatch_ok none true true _ (by simp)]
        simp only []
        set st1 := { st with batch := st.batch ++ [normalizeRow r], total := st.total + 1 }
          with hst1
        set st2 := { flushOk true true st1 with batch := [] } with hst2
        have he1 : st1.evs = st.evs := by rw [hst1]
        have htot1 : st1.total = st.total + 1 := by rw [hst1]
        have hjob1 : st1.job = st.job := by rw [hst1]
        have h2evs : st2.evs = (flushOk true true st1).evs := by rw [hst2]
        have h2tot : st2.total = st1.total := by rw [hst2, flushOk_total]
        have h2job : st2.job.total_rows = st1.job.total_rows := by
          rw [hst2, flushOk_job]
        have hfin := processLoop_none_basic true rs st2
        have hsnap2 : deliveredSnaps st2.evs
            = deliveredSnaps st.evs
              ++ [⟨st1.total, st1.job.total_rows,
                   st1.created + (upsert_batch st1.batch st1.store).1.1,
                   st1.updated + (upsert_batch st1.batch st1.store).1.2,
                   "processing", none⟩] := by
          rw [h2evs, deliveredSnaps_flushOk_true, he1]
          simp
        have hih := ih st2 ?_ ?_
        · obtain ⟨L, hL, hLmem, hLpar⟩ := hih
          refine ⟨L, hL, ?_, hLpar⟩
          intro s hs
          have := hLmem s hs
          rw [h2job, hjob1] at this
          exact this
        · intro s hs
          rw [hsnap2] at hs
          rcases List.mem_append.mp hs with h | h
          · refine ⟨(hprev s h).1, ?_, ?_⟩
            · rw [h2job, hjob1]
              exact (hprev s h).2.1
            · have := (hprev s h).2.2
              rw [h2tot, htot1]
              omega
          · rcases List.mem_cons.mp h with h | h
            · subst h
              refine ⟨rfl, ?_, ?_⟩
              · rw [h2job]
              · rw [h2tot]
            · simp at h
        · rw [hsnap2]
          rw [List.pairwise_append]
          refine ⟨hpar, by simp, ?_⟩
          intro a ha b hbmem
          rcases List.mem_cons.mp hbmem with hbb | hbb
          · subst hbb
            have := (hprev a ha).2.2
            simp only []
            omega
          · simp at hbb
      · rw [if_neg (by simpa using hb)]
        set st1 := { st with batch := st.batch ++ [normalizeRow r], total := st.total + 1 }
          with hst1
        have he1 : st1.evs = st.evs := by rw [hst1]
        have htot1 : st1.total = st.total + 1 := by rw [hst1]
        have hjob1 : st1.job = st.job := by rw [hst1]
        have hih := ih st1 ?_ ?_
        · obtain ⟨L, hL, hLmem, hLpar⟩ := hih
          refine ⟨L, hL, ?_, hLpar⟩
          intro s hs
          have := hLmem s hs
          rw [hjob1] at this
          exact this
        · intro s hs
          rw [he1] at hs
          refine ⟨(hprev s hs).1, by rw [hjob1]; exact (hprev s hs).2.1, ?_⟩
          have := (hprev s hs).2.2
          rw [htot1]
          omega
        · rw [he1]
          exact hpar
    · rw [if_neg hv]
      exact ih st hprev hpar

/-- Everything in the loop state except the event trace. -/
def coreOf (st : LoopSt) : List Row × Nat × Nat × Nat × Nat × Job × Store :=
  (st.batch, st.total, st.created, st.updated, st.upserts, st.job, st.store)

theorem coreOf_flushOk (pp b1 b2 : Bool) (st1 st2 : LoopSt)
    (hc : coreOf st1 = coreOf st2) :
    coreOf (flushOk pp b1 st1) = coreOf (flushOk pp b2 st2) := by
  simp only [coreOf, Prod.mk.injEq] at hc
  obtain ⟨hb, ht, hcr, hu, hup, hj, hs⟩ := hc
  simp only [coreOf, Prod.mk.injEq, flushOk_batch, flushOk_total, flushOk_created,
    flushOk_updated, flushOk_upserts, flushOk_store, flushOk_job]
  rw [hb, ht, hcr, hu, hup, hj, hs]
  exact ⟨rfl, rfl, rfl, rfl, rfl, rfl, rfl⟩

theorem evsKey_flushOk (pp b1 b2 : Bool) (st1 st2 : LoopSt)
    (hc : coreOf st1 = coreOf st2)
    (he : st1.evs.map (setDeliv false) = st2.evs.map (setDeliv false)) :
    (flushOk pp b1 st1).evs.map (setDeliv false)
      = (flushOk pp b2 st2).evs.map (setDeliv false) := by
  simp only [coreOf, Prod.mk.injEq] at hc
  obtain ⟨hb, ht, hcr, hu, hup, hj, hs⟩ := hc
  rw [flushOk_evs, flushOk_evs, hb, ht, hcr, hu, hj, hs]
  cases pp <;>
    simp [List.map_append, mkPublish_eq, setDeliv, he]

/-- Broker availability changes only the delivered flag of publish
events: counters, job row, store and error behaviour are identical, and
the traces agree after normalizing the delivered flags. -/
theorem processLoop_broker (failAt : Option Nat) (b1 b2 : Bool) (rows : List RawRow)
    (st1 st2 : LoopSt) (hc : coreOf st1 = coreOf st2)
    (he : st1.evs.map (setDeliv false) = st2.evs.map (setDeliv false)) :
    coreOf (processLoop failAt b1 rows st1).1 = coreOf (processLoop failAt b2 rows st2).1 ∧
    (processLoop failAt b1 rows st1).2 = (processLoop failAt b2 rows st2).2 ∧
    (processLoop failAt b1 rows st1).1.evs.map (setDeliv false)
      = (processLoop failAt b2 rows st2).1.evs.map (setDeliv false) := by
  induction rows generalizing st1 st2 with
  | nil =>
    have hc2 := hc
    simp only [coreOf, Prod.mk.injEq] at hc2
    obtain ⟨hb, ht, hcr, hu, hup, hj, hs⟩ := hc2
    rw [processLoop_nil, processLoop_nil]
    by_cases hbe : st1.batch.isEmpty = true
    · have hbe2 : st2.batch.isEmpty = true := by rw [← hb]; exact hbe
      rw [if_pos hbe, if_pos hbe2]
      refine ⟨?_, rfl, ?_⟩
      · simp only [coreOf, Prod.mk.injEq]
        exact ⟨hb, ht, hcr, hu, hup, hj, hs⟩
      · show (st1.evs ++ [mkPublish b1 _]).map (setDeliv false)
          = (st2.evs ++ [mkPublish b2 _]).map (setDeliv false)
        rw [List.map_append, List.map_append, he, mkPublish_eq, mkPublish_eq]
        simp [setDeliv, ht, hcr, hu]
    · have hbe2 : ¬ st2.batch.isEmpty = true := by rw [← hb]; exact hbe
      rw [if_neg hbe, if_neg hbe2]
      by_cases hf : failAt = some st1.upserts
      · have hf2 : failAt = some st2.upserts := by rw [← hup]; exact hf
        rw [flushBatch_fail failAt b1 false st1 hf, flushBatch_fail failAt b2 false st2 hf2]
        refine ⟨?_, rfl, ?_⟩
        · simp only [coreOf, Prod.mk.injEq]
          exact ⟨hb, ht, hcr, hu, by rw [hup], hj, hs⟩
        · show (st1.evs ++ [Ev.upsertCall st1.batch]).map (setDeliv false)
            = (st2.evs ++ [Ev.upsertCall st2.batch]).map (setDeliv false)
          rw [List.map_append, List.map_append, he, hb]
      · have hf2 : ¬ failAt = some st2.upserts := by rw [← hup]; exact hf
        rw [flushBatch_ok failAt b1 false st1 hf, flushBatch_ok failAt b2 false st2 hf2]
        have hcf := coreOf_flushOk false b1 b2 st1 st2 hc
        have hcf2 := hcf
        simp only [coreOf, Prod.mk.injEq] at hcf2
        obtain ⟨fb, ft, fcr, fu, fup, fj, fs⟩ := hcf2
        refine ⟨?_, rfl, ?_⟩
        · simp only [coreOf, Prod.mk.injEq]
          exact ⟨fb, ft, fcr, fu, fup, fj, fs⟩
        · show ((flushOk false b1 st1).evs ++ [mkPublish b1 _]).map (setDeliv false)
            = ((flushOk false b2 st2).evs ++ [mkPublish b2 _]).map (setDeliv false)
          rw [List.map_append, List.map_append,
            evsKey_flushOk false b1 b2 st1 st2 hc he, mkPublish_eq, mkPublish_eq]
          simp [setDeliv, ft, fcr, fu]
  | cons r rs ih =>
    have hc2 := hc
    simp only [coreOf, Prod.mk.injEq] at hc2
    obtain ⟨hb, ht, hcr, hu, hup, hj, hs⟩ := hc2
    rw [processLoop_cons, processLoop_cons]
    by_cases hv : rowValid r
    · rw [if_pos hv, if_pos hv]
      simp only []
      have hlen : (st1.batch ++ [normalizeRow r]).length = (st2.batch ++ [normalizeRow r]).length := by
        rw [hb]
      have hcx : coreOf ({ st1 with batch := st1.batch ++ [normalizeRow r], total := st1.total + 1 } : LoopSt) = coreOf ({ st2 with batch := st2.batch ++ [normalizeRow r], total := st2.total + 1 } : LoopSt) := by
        simp only [coreOf, Prod.mk.injEq]
        exact ⟨by rw [hb], by rw [ht], hcr, hu, hup, hj, hs⟩
      by_cases hbw : BATCH_SIZE ≤ (st1.batch ++ [normalizeRow r]).length
      · have hbw2 : BATCH_SIZE ≤ (st2.batch ++ [normalizeRow r]).length := by
          rw [← hb]
          exact hbw
        rw [if_pos hbw, if_pos hbw2]
        by_cases hf : failAt = some st1.upserts
        · have hf2 : failAt = some st2.upserts := by rw [← hup]; exact hf
          rw [flushBatch_fail failAt b1 true { st1 with batch := st1.batch ++ [normalizeRow r], total := st1.total + 1 } hf, flushBatch_fail failAt b2 true { st2 with batch := st2.batch ++ [normalizeRow r], total := st2.total + 1 } hf2]
          refine ⟨?_, rfl, ?_⟩
          · simp only [coreOf, Prod.mk.injEq]
            refine ⟨by rw [hb], by rw [ht], hcr, hu, by rw [hup], hj, hs⟩
          · show (st1.evs ++ [Ev.upsertCall (st1.batch ++ [normalizeRow r])]).map (setDeliv false)
              = (st2.evs ++ [Ev.upsertCall (st2.batch ++ [normalizeRow r])]).map (setDeliv false)
            rw [List.map_append, List.map_append, he, hb]
        · have hf2 : ¬ failAt = some st2.upserts := by rw [← hup]; exact hf
          rw [flushBatch_ok failAt b1 true { st1 with batch := st1.batch ++ [normalizeRow r], total := st1.total + 1 } hf, flushBatch_ok failAt b2 true { st2 with batch := st2.batch ++ [normalizeRow r], total := st2.total + 1 } hf2]
          simp only []
          apply ih
          · have hcf := coreOf_flushOk true b1 b2 _ _ hcx
            simp only [coreOf, Prod.mk.injEq] at hcf ⊢
            exact ⟨trivial, hcf.2.1, hcf.2.2.1, hcf.2.2.2.1, hcf.2.2.2.2.1,
              hcf.2.2.2.2.2.1, hcf.2.2.2.2.2.2⟩
          · show (flushOk true b1 _).evs.map (setDeliv false)
              = (flushOk true b2 _).evs.map (setDeliv false)
            exact evsKey_flushOk true b1 b2 _ _ hcx he
      · have hbw2 : ¬ BATCH_SIZE ≤ (st2.batch ++ [normalizeRow r]).length := by
          rw [← hb]
          exact hbw
        rw [if_neg hbw, if_neg hbw2]
        exact ih _ _ hcx he
    · rw [if_neg hv, if_neg hv]
      exact ih _ _ hc he

/-! ## Task-level unfolding and projections -/

theorem split_none (p : LoopSt × Option String) (h : p.2 = none) : p = (p.1, none) := by
  rw [← h]

theorem split_some (p : LoopSt × Option String) (e : String) (h : p.2 = some e) :
    p = (p.1, some e) := by
  rw [← h]

theorem process_csv_import_file (env : Env) (job0 : Job) (h : env.fileExists = true) :
    process_csv_import env job0 =
      mainRun env
        { job0 with status := "processing", total_rows := count_csv_rows env.content }
        [Ev.setStatus "processing", Ev.webhook "import.started",
         Ev.setTotal (count_csv_rows env.content)] := by
  unfold process_csv_import
  rw [if_pos h]

theorem process_csv_import_noFile (env : Env) (job0 : Job) (h : env.fileExists = false) :
    process_csv_import env job0 =
      failurePath env { job0 with status := "processing" } env.store
        [Ev.setStatus "processing", Ev.webhook "import.started"] fileErrMsg := by
  unfold process_csv_import
  rw [if_neg (by simp [h])]

theorem mainRun_ok (env : Env) (job : Job) (evs : List Ev) (st : LoopSt)
    (h : processLoop env.failAt env.brokerUp env.content (initSt job env.store evs)
          = (st, none)) :
    mainRun env job evs = successPath env st := by
  unfold mainRun process_csv_content
  rw [h]

theorem mainRun_err (env : Env) (job : Job) (evs : List Ev) (st : LoopSt) (e : String)
    (h : processLoop env.failAt env.brokerUp env.content (initSt job env.store evs)
          = (st, some e)) :
    mainRun env job evs = failurePath env st.job st.store st.evs e := by
  unfold mainRun process_csv_content
  rw [h]

theorem successPath_job (env : Env) (st : LoopSt) :
    (successPath env st).job = { st.job with status := "completed" } := rfl

theorem successPath_store (env : Env) (st : LoopSt) :
    (successPath env st).store = st.store := rfl

theorem successPath_evs (env : Env) (st : LoopSt) :
    (successPath env st).evs
      = st.evs ++ [Ev.setStatus "completed", Ev.webhook "import.completed",
                   Ev.fileRemove (env.fileExists && !env.cleanupFails)] := by
  show st.evs ++ [Ev.setStatus "completed", Ev.webhook "import.completed"]
      ++ [(cleanupStep env).2] = _
  rw [List.append_assoc]
  rfl

theorem successPath_result (env : Env) (st : LoopSt) :
    (successPath env st).result
      = Except.ok (st.job.total_rows, st.job.created_rows, st.job.updated_rows) := rfl

theorem successPath_fileRemoved (env : Env) (st : LoopSt) :
    (successPath env st).fileRemoved = (env.fileExists && !env.cleanupFails) := rfl

theorem failurePath_job (env : Env) (job : Job) (store : Store) (evs : List Ev) (e : String) :
    (failurePath env job store evs e).job
      = { job with status := "failed", error_message := some e } := rfl

theorem failurePath_store (env : Env) (job : Job) (store : Store) (evs : List Ev)
    (e : String) : (failurePath env job store evs e).store = store := rfl

theorem failurePath_evs (env : Env) (job : Job) (store : Store) (evs : List Ev) (e : String) :
    (failurePath env job store evs e).evs
      = evs ++ [Ev.setStatus "failed",
                Ev.publishSnap ⟨0, 0, 0, 0, "failed", some e⟩ env.brokerUp,
                Ev.webhook "import.failed",
                Ev.fileRemove (env.fileExists && !env.cleanupFails)] := by
  show evs ++ [Ev.setStatus "failed", mkPublish env.brokerUp ⟨0, 0, 0, 0, "failed", some e⟩,
        Ev.webhook "import.failed"] ++ [(cleanupStep env).2] = _
  rw [mkPublish_eq, List.append_assoc]
  rfl

theorem failurePath_result (env : Env) (job : Job) (store : Store) (evs : List Ev)
    (e : String) : (failurePath env job store evs e).result = Except.error e := rfl

theorem failurePath_fileRemoved (env : Env) (job : Job) (store : Store) (evs : List Ev)
    (e : String) :
    (failurePath env job store evs e).fileRemoved
      = (env.fileExists && !env.cleanupFails) := rfl

theorem checkpoints_successPath (env : Env) (st : LoopSt) :
    checkpoints (successPath env st).evs = checkpoints st.evs := by
  rw [successPath_evs, checkpoints_append]
  simp [checkpoints]

theorem checkpoints_failurePath (env : Env) (job : Job) (store : Store) (evs : List Ev)
    (e : String) :
    checkpoints (failurePath env job store evs e).evs = checkpoints evs := by
  rw [failurePath_evs, checkpoints_append]
  simp [checkpoints]

theorem emittedRows_successPath (env : Env) (st : LoopSt) :
    emittedRows (successPath env st).evs = emittedRows st.evs := by
  rw [successPath_evs, emittedRows_append]
  simp [emittedRows]

theorem upsertSizes_successPath (env : Env) (st : LoopSt) :
    upsertSizes (successPath env st).evs = upsertSizes st.evs := by
  rw [successPath_evs]
  simp [upsertSizes, List.filterMap_append]

theorem deliveredSnaps_successPath (env : Env) (st : LoopSt) :
    deliveredSnaps (successPath env st).evs = deliveredSnaps st.evs := by
  rw [successPath_evs, deliveredSnaps_append]
  simp [deliveredSnaps]

theorem statusWrites_successPath (env : Env) (st : LoopSt) :
    statusWrites (successPath env st).evs = statusWrites st.evs ++ ["completed"] := by
  rw [successPath_evs]
  simp [statusWrites, List.filterMap_append]

theorem statusWrites_failurePath (env : Env) (job : Job) (store : Store) (evs : List Ev)
    (e : String) :
    statusWrites (failurePath env job store evs e).evs = statusWrites evs ++ ["failed"] := by
  rw [failurePath_evs]
  simp [statusWrites, List.filterMap_append]

theorem deliveredSnaps_failurePath (env : Env) (job : Job) (store : Store) (evs : List Ev)
    (e : String) :
    deliveredSnaps (failurePath env job store evs e).evs
      = deliveredSnaps evs
        ++ (if env.brokerUp then [⟨0, 0, 0, 0, "failed", some e⟩] else []) := by
  rw [failurePath_evs, deliveredSnaps_append]
  cases hb : env.brokerUp <;> simp [deliveredSnaps]

/-! ## The loop preserves store well-formedness -/

theorem flushOk_storeOk (pp b : Bool) (st : LoopSt) (hOk : StoreOk st.store)
    (hlow : ∀ r ∈ st.batch, lower r.sku = r.sku) : StoreOk (flushOk pp b st).store := by
  rw [flushOk_store]
  exact upsert_batch_storeOk st.batch st.store hOk hlow

theorem processLoop_storeOk (failAt : Option Nat) (brokerUp : Bool)
    (rows : List RawRow) (st : LoopSt)
    (hOk : StoreOk st.store)
    (hlow : ∀ r ∈ st.batch, lower r.sku = r.sku) :
    StoreOk (processLoop failAt brokerUp rows st).1.store := by
  induction rows generalizing st with
  | nil =>
    rw [processLoop_nil]
    by_cases hbe : st.batch.isEmpty
    · rw [if_pos hbe]
      exact hOk
    · rw [if_neg hbe]
      unfold flushBatch
      by_cases hfail : failAt == some st.upserts
      · rw [if_pos hfail]
        exact hOk
      · rw [if_neg hfail]
        simp only []
        exact flushOk_storeOk false brokerUp st hOk hlow
  | cons r rs ih =>
    rw [processLoop_cons]
    by_cases hv : rowValid r
    · rw [if_pos hv]
      simp only []
      have hlow2 : ∀ q ∈ st.batch ++ [normalizeRow r], lower q.sku = q.sku := by
        intro q hq
        rcases List.mem_append.mp hq with hh | hh
        · exact hlow q hh
        · rcases List.mem_singleton.mp hh with rfl
          exact normalizeRow_sku_lower r
      by_cases hb : BATCH_SIZE ≤ st.batch.length + 1
      · rw [if_pos (by simpa using hb)]
        unfold flushBatch
        by_cases hfail : failAt == some st.upserts
        · rw [if_pos (by simpa using hfail)]
          exact hOk
        · rw [if_neg (by simpa using hfail)]
          simp only []
          refine ih _ ?_ ?_
          · exact flushOk_storeOk true brokerUp
              { st with batch := st.batch ++ [normalizeRow r], total := st.total + 1 }
              hOk hlow2
          · intro q hq
            rw [show ({ flushOk true brokerUp { st with batch := st.batch ++ [normalizeRow r], total := st.total + 1 } with batch := ([] : List Row) } : LoopSt).batch = [] from rfl] at hq
            simp at hq
      · rw [if_neg (by simpa using hb)]
        exact ih _ hOk hlow2
    · rw [if_neg hv]
      exact ih st hOk hlow

/-! ## Relay behaviour on well-shaped snapshot sequences -/

theorem relay_all (L : List Snap) (fin : Snap)
    (h : ∀ s ∈ L, snapTerminal s = false) (hf : snapTerminal fin = true) :
    relay (L ++ [fin]) = L ++ [fin] := by
  induction L with
  | nil =>
    show (if snapTerminal fin = true then [fin] else fin :: relay []) = [fin]
    rw [if_pos hf]
  | cons s L ih =>
    have hs := h s (List.mem_cons_self s L)
    rw [List.cons_append]
    show (if snapTerminal s = true then [s] else s :: relay (L ++ [fin])) = s :: (L ++ [fin])
    rw [hs]
    simp only [Bool.false_eq_true, if_false]
    rw [ih (fun q hq => h q (List.mem_cons_of_mem s hq))]

theorem suffix_split (L : List Snap) (fin : Snap) (l1 l2 : List Snap)
    (heq : L ++ [fin] = l1 ++ l2) :
    l2 = [] ∨ ∃ L2, l2 = L2 ++ [fin] ∧ ∀ s ∈ L2, s ∈ L := by
  induction L generalizing l1 with
  | nil =>
    cases l1 with
    | nil =>
      right
      refine ⟨[], by simpa using heq.symm, ?_⟩
      intro s hs
      simp at hs
    | cons a l1 =>
      left
      rw [List.cons_append] at heq
      injection heq with h1 h2
      exact (List.append_eq_nil.mp h2.symm).2
  | cons s L ih =>
    cases l1 with
    | nil =>
      right
      rw [List.nil_append] at heq
      exact ⟨s :: L, heq.symm, fun q hq => hq⟩
    | cons a l1 =>
      rw [List.cons_append, List.cons_append] at heq
      injection heq with h1 h2
      rcases ih l1 h2 with hh | ⟨L2, hL2, hmem⟩
      · exact Or.inl hh
      · exact Or.inr ⟨L2, hL2, fun q hq => List.mem_cons_of_mem s (hmem q hq)⟩

/-- The job row as the task has set it up just before the loop starts. -/
def startJob (job0 : Job) (n : Nat) : Job :=
  { job0 with status := "processing", total_rows := n }

/-- The events the task has emitted just before the loop starts. -/
def startEvs (n : Nat) : List Ev :=
  [Ev.setStatus "processing", Ev.webhook "import.started", Ev.setTotal n]

theorem task_ok (content : List RawRow) (store : Store) (fa : Option Nat) (b cf : Bool)
    (job0 : Job) (st : LoopSt)
    (h : processLoop fa b content
          (initSt (startJob job0 content.length) store (startEvs content.length))
        = (st, none)) :
    process_csv_import ⟨content, store, true, fa, b, cf⟩ job0
      = successPath ⟨content, store, true, fa, b, cf⟩ st := by
  rw [process_csv_import_file _ job0 rfl]
  exact mainRun_ok _ _ _ _ h

theorem task_err (content : List RawRow) (store : Store) (fa : Option Nat) (b cf : Bool)
    (job0 : Job) (st : LoopSt) (e : String)
    (h : processLoop fa b content
          (initSt (startJob job0 content.length) store (startEvs content.length))
        = (st, some e)) :
    process_csv_import ⟨content, store, true, fa, b, cf⟩ job0
      = failurePath ⟨content, store, true, fa, b, cf⟩ st.job st.store st.evs e := by
  rw [process_csv_import_file _ job0 rfl]
  exact mainRun_err _ _ _ _ e h

/-! ## The claims -/

/-- C1 (corrected): for every task environment — any store-failure point,
broker availability, file presence and cleanup outcome — every
`(processed, created, updated)` checkpoint persisted by `update_progress`
satisfies `created + updated ≤ processed`, and the same inequality holds
on the final job row.  The spec's claimed equality is refuted by
`C1_cex`: when the same sku occurs twice within one batch, the batch is
deduplicated before the upsert and the committed checkpoint undercounts
`created + updated`. -/
theorem C1_counters (env : Env) (job0 : Job)
    (hOk : StoreOk env.store)
    (hjob : job0.created_rows + job0.updated_rows ≤ job0.processed_rows) :
    (∀ cp ∈ checkpoints (process_csv_import env job0).evs, cp.2.1 + cp.2.2 ≤ cp.1) ∧
    (process_csv_import env job0).job.created_rows
        + (process_csv_import env job0).job.updated_rows
      ≤ (process_csv_import env job0).job.processed_rows := by
  by_cases hfe : env.fileExists
  · rw [process_csv_import_file env job0 hfe]
    obtain ⟨hcps, hjob2⟩ := processLoop_checkpoints_le env.failAt env.brokerUp env.content
      (initSt { job0 with status := "processing", total_rows := count_csv_rows env.content }
        env.store
        [Ev.setStatus "processing", Ev.webhook "import.started",
         Ev.setTotal (count_csv_rows env.content)])
      hOk (by simp [initSt]) (by simp [initSt]) (by simp [initSt, checkpoints])
      (by simpa [initSt] using hjob)
    cases herr : (processLoop env.failAt env.brokerUp env.content
        (initSt { job0 with status := "processing", total_rows := count_csv_rows env.content }
          env.store
          [Ev.setStatus "processing", Ev.webhook "import.started",
           Ev.setTotal (count_csv_rows env.content)])).2 with
    | none =>
      rw [mainRun_ok env _ _ _ (split_none _ herr)]
      refine ⟨?_, hjob2⟩
      intro cp hcp
      rw [checkpoints_successPath] at hcp
      exact hcps cp hcp
    | some e =>
      rw [mainRun_err env _ _ _ e (split_some _ e herr)]
      refine ⟨?_, hjob2⟩
      intro cp hcp
      rw [checkpoints_failurePath] at hcp
      exact hcps cp hcp
  · rw [process_csv_import_noFile env job0 (by simpa using hfe)]
    refine ⟨?_, hjob⟩
    intro cp hcp
    rw [checkpoints_failurePath] at hcp
    simp [checkpoints] at hcp

/-- C1 witness: the corrected inequality evaluated on a concrete
one-row import into an empty store. -/
theorem C1_counters_witness :
    StoreOk ([] : Store) ∧
    (⟨"f.csv", "uploaded", 0, 0, 0, 0, none⟩ : Job).created_rows
        + (⟨"f.csv", "uploaded", 0, 0, 0, 0, none⟩ : Job).updated_rows
      ≤ (⟨"f.csv", "uploaded", 0, 0, 0, 0, none⟩ : Job).processed_rows ∧
    ((∀ cp ∈ checkpoints (process_csv_import
          ⟨[⟨some "a", some "x", none⟩], [], true, none, true, false⟩
          ⟨"f.csv", "uploaded", 0, 0, 0, 0, none⟩).evs, cp.2.1 + cp.2.2 ≤ cp.1) ∧
      (process_csv_import ⟨[⟨some "a", some "x", none⟩], [], true, none, true, false⟩
          ⟨"f.csv", "uploaded", 0, 0, 0, 0, none⟩).job.created_rows
          + (process_csv_import ⟨[⟨some "a", some "x", none⟩], [], true, none, true, false⟩
              ⟨"f.csv", "uploaded", 0, 0, 0, 0, none⟩).job.updated_rows
        ≤ (process_csv_import ⟨[⟨some "a", some "x", none⟩], [], true, none, true, false⟩
            ⟨"f.csv", "uploaded", 0, 0, 0, 0, none⟩).job.processed_rows) :=
  ⟨by simp [StoreOk], by decide,
   C1_counters ⟨[⟨some "a", some "x", none⟩], [], true, none, true, false⟩
     ⟨"f.csv", "uploaded", 0, 0, 0, 0, none⟩ (by simp [StoreOk]) (by decide)⟩

/-- C1 counterexample: a file whose two rows normalize to the same sku
(`"A"` and `"a"`) within one batch.  The only persisted checkpoint is
`(2, 1, 0)`, and the completed job row has `processed_rows = 2` but
`created_rows + updated_rows = 1`: the spec's equality
`created_rows + updated_rows = processed_rows` fails. -/
theorem C1_cex :
    checkpoints (process_csv_import
        ⟨[⟨some "A", some "x", none⟩, ⟨some "a", some "y", none⟩], [],
         true, none, true, false⟩
        ⟨"f.csv", "uploaded", 0, 0, 0, 0, none⟩).evs = [(2, 1, 0)] ∧
    (process_csv_import
        ⟨[⟨some "A", some "x", none⟩, ⟨some "a", some "y", none⟩], [],
         true, none, true, false⟩
        ⟨"f.csv", "uploaded", 0, 0, 0, 0, none⟩).job.status = "completed" ∧
    ¬((process_csv_import
        ⟨[⟨some "A", some "x", none⟩, ⟨some "a", some "y", none⟩], [],
         true, none, true, false⟩
        ⟨"f.csv", "uploaded", 0, 0, 0, 0, none⟩).job.created_rows
      + (process_csv_import
          ⟨[⟨some "A", some "x", none⟩, ⟨some "a", some "y", none⟩], [],
           true, none, true, false⟩
          ⟨"f.csv", "uploaded", 0, 0, 0, 0, none⟩).job.updated_rows
      = (process_csv_import
          ⟨[⟨some "A", some "x", none⟩, ⟨some "a", some "y", none⟩], [],
           true, none, true, false⟩
          ⟨"f.csv", "uploaded", 0, 0, 0, 0, none⟩).job.processed_rows) := by
  decide

/-- C2 (corrected): the row filter is the raw truthiness check
`not row.get("sku") or not row.get("name")` applied before any
normalization: exactly the rows whose raw sku or raw name is missing or
the empty string are skipped.  On a healthy run the batches receive
precisely the normalized valid rows, `processed_rows` counts precisely
the valid rows, and the run still completes without error.  The spec's
post-normalization reading is refuted by `C2_cex`: a whitespace-only sku
passes the raw check, is emitted (normalized to the empty sku) and is
counted. -/
theorem C2_raw_validity (content : List RawRow) (store : Store) (job0 : Job)
    (b cf : Bool) (hp : job0.processed_rows = 0) :
    emittedRows (process_csv_import ⟨content, store, true, none, b, cf⟩ job0).evs
      = validNorm content ∧
    (process_csv_import ⟨content, store, true, none, b, cf⟩ job0).job.processed_rows
      = validCount content ∧
    ∃ t, (process_csv_import ⟨content, store, true, none, b, cf⟩ job0).result
      = Except.ok t := by
  obtain ⟨herr, htot, hjtot⟩ := processLoop_none_basic b content
    (initSt (startJob job0 content.length) store (startEvs content.length))
  rw [task_ok content store none b cf job0 _ (split_none _ herr)]
  refine ⟨?_, ?_, ⟨_, rfl⟩⟩
  · rw [emittedRows_successPath,
      processLoop_none_emitted b content
        (initSt (startJob job0 content.length) store (startEvs content.length))]
    simp [initSt, startEvs, emittedRows]
  · have hjp := processLoop_none_job_processed b content
      (initSt (startJob job0 content.length) store (startEvs content.length))
      (by simp [initSt, startJob, hp])
    show (processLoop none b content
        (initSt (startJob job0 content.length) store
          (startEvs content.length))).1.job.processed_rows
      = validCount content
    rw [hjp, htot]
    simp [initSt]

/-- C2 witness: the corrected emitted-rows and processed-count
characterization evaluated on a mixed valid/invalid four-row file. -/
theorem C2_raw_validity_witness :
    (⟨"f.csv", "uploaded", 0, 0, 0, 0, none⟩ : Job).processed_rows = 0 ∧
    (emittedRows (process_csv_import
        ⟨[⟨some "a", some "n", none⟩, ⟨none, some "x", none⟩,
          ⟨some "s", none, none⟩, ⟨some "", some "y", none⟩], [], true, none, true, false⟩
        ⟨"f.csv", "uploaded", 0, 0, 0, 0, none⟩).evs
      = validNorm [⟨some "a", some "n", none⟩, ⟨none, some "x", none⟩,
          ⟨some "s", none, none⟩, ⟨some "", some "y", none⟩] ∧
    (process_csv_import
        ⟨[⟨some "a", some "n", none⟩, ⟨none, some "x", none⟩,
          ⟨some "s", none, none⟩, ⟨some "", some "y", none⟩], [], true, none, true, false⟩
        ⟨"f.csv", "uploaded", 0, 0, 0, 0, none⟩).job.processed_rows
      = validCount [⟨some "a", some "n", none⟩, ⟨none, some "x", none⟩,
          ⟨some "s", none, none⟩, ⟨some "", some "y", none⟩] ∧
    ∃ t, (process_csv_import
        ⟨[⟨some "a", some "n", none⟩, ⟨none, some "x", none⟩,
          ⟨some "s", none, none⟩, ⟨some "", some "y", none⟩], [], true, none, true, false⟩
        ⟨"f.csv", "uploaded", 0, 0, 0, 0, none⟩).result = Except.ok t) :=
  ⟨by decide,
   C2_raw_validity [⟨some "a", some "n", none⟩, ⟨none, some "x", none⟩,
       ⟨some "s", none, none⟩, ⟨some "", some "y", none⟩] []
     ⟨"f.csv", "uploaded", 0, 0, 0, 0, none⟩ true false (by decide)⟩

/-- C2 counterexample: a row whose sku is a single space.  The raw
truthiness check passes, so the row is not skipped: it is emitted with
the empty normalized sku and `processed_rows` becomes 1, refuting the
spec's claim that a whitespace-only sku is skipped after normalization. -/
theorem C2_cex :
    (process_csv_import ⟨[⟨some " ", some "x", none⟩], [], true, none, true, false⟩
        ⟨"f.csv", "uploaded", 0, 0, 0, 0, none⟩).job.processed_rows = 1 ∧
    emittedRows (process_csv_import ⟨[⟨some " ", some "x", none⟩], [], true, none, true,
        false⟩ ⟨"f.csv", "uploaded", 0, 0, 0, 0, none⟩).evs
      = [{ sku := "", name := "x", descr := none, active := true }] := by
  decide

theorem upsert_batch_store_eq (ps : List Row) (store : Store) (hps : ps.isEmpty = false) :
    (upsert_batch ps store).2 = (dedupBySku ps).foldl upsertOne store := by
  unfold upsert_batch
  rw [if_neg (by simp [hps])]

/-- C3 (corrected): re-importing the identical file into the store produced
by a first healthy import yields `created_rows = 0` and
`updated_rows` equal to the count of valid rows, PROVIDED the file's
normalized valid skus are pairwise distinct.  The unconditional claim is
refuted by `C3_cex`: when a sku repeats within one batch the
second import updates only the deduplicated rows, so `updated_rows`
falls short of the valid-row count. -/
theorem C3_idempotent (content : List RawRow) (store0 : Store) (job01 job02 : Job)
    (b1 b2 : Bool) (cf1 cf2 : Bool)
    (hOk : StoreOk store0)
    (hnd : (validSkus content).Nodup)
    (hc2 : job02.created_rows = 0) (hu2 : job02.updated_rows = 0) :
    (process_csv_import
        ⟨content, (process_csv_import ⟨content, store0, true, none, b1, cf1⟩ job01).store,
         true, none, b2, cf2⟩ job02).job.created_rows = 0 ∧
    (process_csv_import
        ⟨content, (process_csv_import ⟨content, store0, true, none, b1, cf1⟩ job01).store,
         true, none, b2, cf2⟩ job02).job.updated_rows = validCount content := by
  obtain ⟨herr1, htot1, hjtot1⟩ := processLoop_none_basic b1 content
    (initSt (startJob job01 content.length) store0 (startEvs content.length))
  rw [task_ok content store0 none b1 cf1 job01 _ (split_none _ herr1), successPath_store]
  have hOk1 : StoreOk (processLoop none b1 content
      (initSt (startJob job01 content.length) store0 (startEvs content.length))).1.store :=
    processLoop_storeOk none b1 content _ hOk (by simp [initSt])
  have hkeys : ∀ k ∈ validSkus content,
      k ∈ ((processLoop none b1 content
        (initSt (startJob job01 content.length) store0
          (startEvs content.length))).1.store).map Product.sku := by
    intro k hk
    obtain ⟨r, hr, hrk⟩ := List.mem_map.mp hk
    have hrmem := List.mem_filter.mp hr
    exact processLoop_none_keys b1 content _ k
      (Or.inr (Or.inr ⟨r, hrmem.1, hrmem.2, hrk⟩))
  obtain ⟨herr2, htot2, hjtot2⟩ := processLoop_none_basic b2 content
    (initSt (startJob job02 content.length)
      (processLoop none b1 content
        (initSt (startJob job01 content.length) store0 (startEvs content.length))).1.store
      (startEvs content.length))
  rw [task_ok content _ none b2 cf2 job02 _ (split_none _ herr2)]
  obtain ⟨hjc, hju⟩ := processLoop_job_counters none b2 content
    (initSt (startJob job02 content.length)
      (processLoop none b1 content
        (initSt (startJob job01 content.length) store0 (startEvs content.length))).1.store
      (startEvs content.length))
    (by simp [initSt, startJob, hc2]) (by simp [initSt, startJob, hu2])
  obtain ⟨hcr, hup⟩ := processLoop_none_second b2 content
    (initSt (startJob job02 content.length)
      (processLoop none b1 content
        (initSt (startJob job01 content.length) store0 (startEvs content.length))).1.store
      (startEvs content.length))
    hOk1 (by simp [initSt])
    (by simpa [initSt] using hnd)
    (by
      intro k hk
      simp only [initSt, List.map_nil, List.nil_append] at hk
      obtain ⟨p, hp, hpk⟩ := List.mem_map.mp (hkeys k hk)
      exact ⟨p, hp, hpk⟩)
  constructor
  · show (processLoop none b2 content
        (initSt (startJob job02 content.length)
          (processLoop none b1 content
            (initSt (startJob job01 content.length) store0
              (startEvs content.length))).1.store
          (startEvs content.length))).1.job.created_rows = 0
    rw [hjc, hcr]
    simp [initSt]
  · show (processLoop none b2 content
        (initSt (startJob job02 content.length)
          (processLoop none b1 content
            (initSt (startJob job01 content.length) store0
              (startEvs content.length))).1.store
          (startEvs content.length))).1.job.updated_rows = validCount content
    rw [hju, hup]
    simp [initSt]

/-- C3 witness: the conditional idempotence evaluated on a two-row file
with distinct skus imported twice into an initially empty store. -/
theorem C3_idempotent_witness :
    StoreOk ([] : Store) ∧
    (validSkus [⟨some "a", some "x", none⟩, ⟨some "b", some "y", none⟩]).Nodup ∧
    (⟨"g.csv", "uploaded", 0, 0, 0, 0, none⟩ : Job).created_rows = 0 ∧
    (⟨"g.csv", "uploaded", 0, 0, 0, 0, none⟩ : Job).updated_rows = 0 ∧
    ((process_csv_import
        ⟨[⟨some "a", some "x", none⟩, ⟨some "b", some "y", none⟩],
         (process_csv_import
           ⟨[⟨some "a", some "x", none⟩, ⟨some "b", some "y", none⟩], [],
            true, none, true, false⟩ ⟨"g.csv", "uploaded", 0, 0, 0, 0, none⟩).store,
         true, none, true, false⟩
        ⟨"g.csv", "uploaded", 0, 0, 0, 0, none⟩).job.created_rows = 0 ∧
    (process_csv_import
        ⟨[⟨some "a", some "x", none⟩, ⟨some "b", some "y", none⟩],
         (process_csv_import
           ⟨[⟨some "a", some "x", none⟩, ⟨some "b", some "y", none⟩], [],
            true, none, true, false⟩ ⟨"g.csv", "uploaded", 0, 0, 0, 0, none⟩).store,
         true, none, true, false⟩
        ⟨"g.csv", "uploaded", 0, 0, 0, 0, none⟩).job.updated_rows
      = validCount [⟨some "a", some "x", none⟩, ⟨some "b", some "y", none⟩]) :=
  ⟨by simp [StoreOk], by decide, by decide, by decide,
   C3_idempotent [⟨some "a", some "x", none⟩, ⟨some "b", some "y", none⟩] []
     ⟨"g.csv", "uploaded", 0, 0, 0, 0, none⟩ ⟨"g.csv", "uploaded", 0, 0, 0, 0, none⟩
     true true false false (by simp [StoreOk]) (by decide) (by decide) (by decide)⟩

/-- C3 counterexample: a file whose two rows normalize to the same sku.
The second import of the identical file yields `created_rows = 0` but
`updated_rows = 1`, not the valid-row count 2: full idempotence as the
spec states it fails. -/
theorem C3_cex :
    (process_csv_import
        ⟨[⟨some "A", some "x", none⟩, ⟨some "a", some "y", none⟩],
         (process_csv_import
           ⟨[⟨some "A", some "x", none⟩, ⟨some "a", some "y", none⟩], [],
            true, none, true, false⟩ ⟨"f.csv", "uploaded", 0, 0, 0, 0, none⟩).store,
         true, none, true, false⟩
        ⟨"f.csv", "uploaded", 0, 0, 0, 0, none⟩).job.updated_rows = 1 ∧
    validCount [⟨some "A", some "x", none⟩, ⟨some "a", some "y", none⟩] = 2 := by
  decide

/-- C4 (confirmed): when a sku occurs in a batch, the batch is
deduplicated before the atomic upsert so that exactly the last occurrence
in file order survives for that sku, and after `upsert_batch` every
stored record with that sku carries the last occurrence's name and
description (and such a record exists). -/
theorem C4_last_wins (ps : List Row) (store : Store) (k : String) (rstar : Row)
    (h : (ps.filter (fun r => r.sku == k)).getLast? = some rstar) :
    (dedupBySku ps).filter (fun r => r.sku == k) = [rstar] ∧
    (∀ p ∈ (upsert_batch ps store).2, p.sku = k →
        p.name = rstar.name ∧ p.descr = rstar.descr) ∧
    ∃ p ∈ (upsert_batch ps store).2, p.sku = k := by
  have hone : (dedupBySku ps).filter (fun r => r.sku == k) = [rstar] := by
    rw [dedupBySku_filter_last, h]
    rfl
  have hps : ps.isEmpty = false := by
    cases hc : ps
    · rw [hc] at h
      simp at h
    · rfl
  have hsto := upsert_batch_store_eq ps store hps
  obtain ⟨hall, hex⟩ := foldl_upsertOne_key_last (dedupBySku ps) store k rstar hone
  refine ⟨hone, ?_, ?_⟩
  · intro p hp hpk
    rw [hsto] at hp
    exact hall p hp hpk
  · obtain ⟨p, hp, hpk⟩ := hex
    refine ⟨p, ?_, hpk⟩
    rw [hsto]
    exact hp

/-- C4 witness: last-occurrence-wins evaluated on a three-row batch whose
first and third rows share the sku `"a"`. -/
theorem C4_last_wins_witness :
    ([(⟨"a", "x", none, true⟩ : Row), ⟨"b", "y", none, true⟩,
        ⟨"a", "z", some "d", true⟩].filter (fun r => r.sku == "a")).getLast?
      = some ⟨"a", "z", some "d", true⟩ ∧
    ((dedupBySku [(⟨"a", "x", none, true⟩ : Row), ⟨"b", "y", none, true⟩,
        ⟨"a", "z", some "d", true⟩]).filter (fun r => r.sku == "a")
      = [⟨"a", "z", some "d", true⟩] ∧
    (∀ p ∈ (upsert_batch [(⟨"a", "x", none, true⟩ : Row), ⟨"b", "y", none, true⟩,
        ⟨"a", "z", some "d", true⟩] []).2, p.sku = "a" →
        p.name = (⟨"a", "z", some "d", true⟩ : Row).name
          ∧ p.descr = (⟨"a", "z", some "d", true⟩ : Row).descr) ∧
    ∃ p ∈ (upsert_batch [(⟨"a", "x", none, true⟩ : Row), ⟨"b", "y", none, true⟩,
        ⟨"a", "z", some "d", true⟩] []).2, p.sku = "a") :=
  ⟨by decide,
   C4_last_wins [⟨"a", "x", none, true⟩, ⟨"b", "y", none, true⟩, ⟨"a", "z", some "d", true⟩]
     [] "a" ⟨"a", "z", some "d", true⟩ (by decide)⟩

/-- C5 (confirmed): when the store raises at the `k`-th upsert call (with
the `k`-th batch existing, i.e. `BATCH_SIZE * k` below the valid-row
count) the task ends with job status `failed`, the non-empty error
message of the outage, `processed_rows` equal to exactly the
`BATCH_SIZE * k` rows of the `k` batches whose commit succeeded, the
exception re-raised at the task layer, and the staged temp file removed
(here with the cleanup itself succeeding). -/
theorem C5_midbatch_outage (content : List RawRow) (store : Store) (job0 : Job)
    (b : Bool) (k : Nat)
    (hk : BATCH_SIZE * k < validCount content)
    (hp : job0.processed_rows = 0) :
    (process_csv_import ⟨content, store, true, some k, b, false⟩ job0).job.status
      = "failed" ∧
    (process_csv_import ⟨content, store, true, some k, b, false⟩ job0).job.error_message
      = some dbErrMsg ∧
    (process_csv_import ⟨content, store, true, some k, b, false⟩ job0).job.processed_rows
      = BATCH_SIZE * k ∧
    (process_csv_import ⟨content, store, true, some k, b, false⟩ job0).result
      = Except.error dbErrMsg ∧
    (process_csv_import ⟨content, store, true, some k, b, false⟩ job0).fileRemoved
      = true := by
  obtain ⟨herr, hjp⟩ := processLoop_fail b k content
    (initSt (startJob job0 content.length) store (startEvs content.length))
    (by simp [initSt])
    (by
      have h9 : 1000 * k < validCount content := by simpa [BATCH_SIZE] using hk
      simp only [initSt, numBatchesOf, BATCH_SIZE, List.length_nil]
      omega)
    (by simp [initSt, BATCH_SIZE])
    (by simp [initSt, startJob, hp])
    (by simp [initSt])
  rw [task_err content store (some k) b false job0 _ dbErrMsg (split_some _ dbErrMsg herr)]
  refine ⟨rfl, rfl, ?_, rfl, rfl⟩
  show (processLoop (some k) b content
      (initSt (startJob job0 content.length) store
        (startEvs content.length))).1.job.processed_rows = BATCH_SIZE * k
  exact hjp

/-- C5 witness: the outage behaviour evaluated with the store failing at
the very first upsert of a one-row file. -/
theorem C5_midbatch_outage_witness :
    BATCH_SIZE * 0 < validCount [⟨some "a", some "x", none⟩] ∧
    (⟨"f.csv", "uploaded", 0, 0, 0, 0, none⟩ : Job).processed_rows = 0 ∧
    ((process_csv_import ⟨[⟨some "a", some "x", none⟩], [], true, some 0, true, false⟩
        ⟨"f.csv", "uploaded", 0, 0, 0, 0, none⟩).job.status = "failed" ∧
    (process_csv_import ⟨[⟨some "a", some "x", none⟩], [], true, some 0, true, false⟩
        ⟨"f.csv", "uploaded", 0, 0, 0, 0, none⟩).job.error_message = some dbErrMsg ∧
    (process_csv_import ⟨[⟨some "a", some "x", none⟩], [], true, some 0, true, false⟩
        ⟨"f.csv", "uploaded", 0, 0, 0, 0, none⟩).job.processed_rows = BATCH_SIZE * 0 ∧
    (process_csv_import ⟨[⟨some "a", some "x", none⟩], [], true, some 0, true, false⟩
        ⟨"f.csv", "uploaded", 0, 0, 0, 0, none⟩).result = Except.error dbErrMsg ∧
    (process_csv_import ⟨[⟨some "a", some "x", none⟩], [], true, some 0, true, false⟩
        ⟨"f.csv", "uploaded", 0, 0, 0, 0, none⟩).fileRemoved = true) :=
  ⟨by decide, by decide,
   C5_midbatch_outage [⟨some "a", some "x", none⟩] []
     ⟨"f.csv", "uploaded", 0, 0, 0, 0, none⟩ true 0 (by decide) (by decide)⟩

theorem validCount_replicate (n : Nat) (r : RawRow) (h : rowValid r = true) :
    validCount (List.replicate n r) = n := by
  induction n with
  | zero => rfl
  | succ n ih =>
    rw [List.replicate_succ, validCount_cons_valid r _ h, ih]

/-- C6 (corrected): on a run without store failure the delivered snapshot
sequence is some `processing` snapshots followed by one terminal
`completed` snapshot, `processed` is non-decreasing along it, and a
subscriber attached at any point — receiving any suffix of the sequence —
relays everything it receives and closes exactly once, on the terminal
snapshot, which is the one and only terminal snapshot of the stream.  The
unconditional non-decreasing claim is refuted by `C6_cex`: after a store
outage the task publishes a terminal `failed` snapshot with
`processed = 0`, below the preceding `processing` snapshot. -/
theorem C6_stream_suffix (content : List RawRow) (store : Store) (job0 : Job) (cf : Bool) :
    ∃ L fin,
      deliveredSnaps (process_csv_import ⟨content, store, true, none, true, cf⟩ job0).evs
        = L ++ [fin] ∧
      fin.status = "completed" ∧
      (∀ s ∈ L, s.status = "processing") ∧
      List.Pairwise (fun a b => a.processed ≤ b.processed) (L ++ [fin]) ∧
      (∀ l1 l2, L ++ [fin] = l1 ++ l2 → relay l2 = l2) := by
  obtain ⟨herr, htot, hjtot⟩ := processLoop_none_basic true content
    (initSt (startJob job0 content.length) store (startEvs content.length))
  rw [task_ok content store none true cf job0 _ (split_none _ herr),
    deliveredSnaps_successPath]
  obtain ⟨L, hL, hmem, hpar⟩ := processLoop_none_snaps content
    (initSt (startJob job0 content.length) store (startEvs content.length))
    (by
      intro s hs
      simp [initSt, startEvs, deliveredSnaps] at hs)
    (by simp [initSt, startEvs, deliveredSnaps])
  refine ⟨L, _, hL, rfl, ?_, ?_, ?_⟩
  · intro s hs
    exact (hmem s hs).1
  · rw [List.pairwise_append]
    refine ⟨hpar, by simp, ?_⟩
    intro a ha b hb
    rw [List.mem_singleton] at hb
    rw [hb]
    exact (hmem a ha).2.2
  · intro l1 l2 heq
    rcases suffix_split L _ l1 l2 heq with h0 | ⟨L2, hL2, hsub⟩
    · rw [h0]
      rfl
    · rw [hL2]
      refine relay_all L2 _ ?_ (by simp [snapTerminal])
      intro s hs
      simp [snapTerminal, (hmem s (hsub s hs)).1]

set_option maxRecDepth 100000 in
/-- C6 counterexample: 1001 valid rows with the store failing at the
second upsert.  The delivered sequence is a `processing` snapshot with
`processed = 1000` followed by the terminal `failed` snapshot with
`processed = 0`: the spec's non-decreasing `processed` fails for a
subscriber attached from the start. -/
theorem C6_cex :
    deliveredSnaps (process_csv_import
        ⟨List.replicate 1001 ⟨some "a", some "x", none⟩, [], true, some 1, true, false⟩
        ⟨"f.csv", "uploaded", 0, 0, 0, 0, none⟩).evs
      = [⟨1000, 1001, 1, 0, "processing", none⟩, ⟨0, 0, 0, 0, "failed", some dbErrMsg⟩] ∧
    ¬ List.Pairwise (fun a b => a.processed ≤ b.processed)
        [(⟨1000, 1001, 1, 0, "processing", none⟩ : Snap),
         ⟨0, 0, 0, 0, "failed", some dbErrMsg⟩] := by
  decide

/-- C7 (confirmed): a source with exactly 2500 valid rows makes exactly 3
upsert calls with batch sizes 1000, 1000, 500, persists exactly 3
progress checkpoints to the job row, and the final delivered snapshot
carries `processed = 2500`. -/
theorem C7_batching_2500 (content : List RawRow) (store : Store) (job0 : Job) (cf : Bool)
    (hvc : validCount content = 2500) :
    upsertSizes (process_csv_import ⟨content, store, true, none, true, cf⟩ job0).evs
      = [1000, 1000, 500] ∧
    (checkpoints (process_csv_import ⟨content, store, true, none, true, cf⟩ job0).evs).length
      = 3 ∧
    ∃ L s, deliveredSnaps (process_csv_import ⟨content, store, true, none, true, cf⟩
          job0).evs
        = L ++ [s] ∧ s.processed = 2500 := by
  obtain ⟨herr, htot, hjtot⟩ := processLoop_none_basic true content
    (initSt (startJob job0 content.length) store (startEvs content.length))
  rw [task_ok content store none true cf job0 _ (split_none _ herr)]
  obtain ⟨hsz, hcplen⟩ := processLoop_none_sizes true content
    (initSt (startJob job0 content.length) store (startEvs content.length))
    (by simp [initSt, BATCH_SIZE])
  refine ⟨?_, ?_, ?_⟩
  · rw [upsertSizes_successPath, hsz, hvc]
    simp only [initSt, startEvs, List.length_nil, Nat.zero_add]
    simp [upsertSizes, expectedBatchSizes, BATCH_SIZE, List.replicate]
  · rw [checkpoints_successPath, hcplen, hvc]
    simp only [initSt, startEvs, List.length_nil, Nat.zero_add]
    simp [checkpoints, expectedBatchSizes, BATCH_SIZE]
  · obtain ⟨L, hL, hmem, hpar⟩ := processLoop_none_snaps content
      (initSt (startJob job0 content.length) store (startEvs content.length))
      (by
        intro s hs
        simp [initSt, startEvs, deliveredSnaps] at hs)
      (by simp [initSt, startEvs, deliveredSnaps])
    rw [deliveredSnaps_successPath, hL]
    refine ⟨L, _, rfl, ?_⟩
    show (processLoop none true content
        (initSt (startJob job0 content.length) store (startEvs content.length))).1.total
      = 2500
    rw [htot, hvc]
    simp [initSt]

/-- C7 witness: the batching scenario evaluated on 2500 identical valid
rows. -/
theorem C7_batching_2500_witness :
    validCount (List.replicate 2500 ⟨some "a", some "x", none⟩) = 2500 ∧
    (upsertSizes (process_csv_import
        ⟨List.replicate 2500 ⟨some "a", some "x", none⟩, [], true, none, true, false⟩
        ⟨"f.csv", "uploaded", 0, 0, 0, 0, none⟩).evs = [1000, 1000, 500] ∧
    (checkpoints (process_csv_import
        ⟨List.replicate 2500 ⟨some "a", some "x", none⟩, [], true, none, true, false⟩
        ⟨"f.csv", "uploaded", 0, 0, 0, 0, none⟩).evs).length = 3 ∧
    ∃ L s, deliveredSnaps (process_csv_import
        ⟨List.replicate 2500 ⟨some "a", some "x", none⟩, [], true, none, true, false⟩
        ⟨"f.csv", "uploaded", 0, 0, 0, 0, none⟩).evs = L ++ [s] ∧ s.processed = 2500) :=
  ⟨validCount_replicate 2500 ⟨some "a", some "x", none⟩ rfl,
   C7_batching_2500 (List.replicate 2500 ⟨some "a", some "x", none⟩) []
     ⟨"f.csv", "uploaded", 0, 0, 0, 0, none⟩ false
     (validCount_replicate 2500 ⟨some "a", some "x", none⟩ rfl)⟩

/-- C8 (confirmed): `publish_progress` swallows the broker failure — it
returns normally whether or not the broker is reachable — and broker
unavailability changes nothing else in the run: the final job row, the
products table, the task result and the cleanup are identical, and the
whole event trace agrees once the delivered flag of the publish events is
disregarded. -/
theorem C8_publish_silent (content : List RawRow) (store : Store) (fe : Bool)
    (fa : Option Nat) (cf : Bool) (job0 : Job) (s : Snap) :
    publish_progress false s = Except.ok none ∧
    publish_progress true s = Except.ok (some s) ∧
    (process_csv_import ⟨content, store, fe, fa, false, cf⟩ job0).job
      = (process_csv_import ⟨content, store, fe, fa, true, cf⟩ job0).job ∧
    (process_csv_import ⟨content, store, fe, fa, false, cf⟩ job0).store
      = (process_csv_import ⟨content, store, fe, fa, true, cf⟩ job0).store ∧
    (process_csv_import ⟨content, store, fe, fa, false, cf⟩ job0).result
      = (process_csv_import ⟨content, store, fe, fa, true, cf⟩ job0).result ∧
    (process_csv_import ⟨content, store, fe, fa, false, cf⟩ job0).fileRemoved
      = (process_csv_import ⟨content, store, fe, fa, true, cf⟩ job0).fileRemoved ∧
    (process_csv_import ⟨content, store, fe, fa, false, cf⟩ job0).evs.map (setDeliv false)
      = (process_csv_import ⟨content, store, fe, fa, true, cf⟩ job0).evs.map
          (setDeliv false) := by
  obtain ⟨hcore, herr, hevs⟩ := processLoop_broker fa false true content
    (initSt (startJob job0 content.length) store (startEvs content.length))
    (initSt (startJob job0 content.length) store (startEvs content.length)) rfl rfl
  simp only [coreOf, Prod.mk.injEq] at hcore
  obtain ⟨hb, ht, hcr, hu, hup, hj, hs2⟩ := hcore
  refine ⟨rfl, rfl, ?_⟩
  cases fe with
  | false =>
    rw [process_csv_import_noFile ⟨content, store, false, fa, false, cf⟩ job0 rfl,
        process_csv_import_noFile ⟨content, store, false, fa, true, cf⟩ job0 rfl]
    refine ⟨rfl, rfl, rfl, rfl, ?_⟩
    rw [failurePath_evs, failurePath_evs]
    simp [setDeliv]
  | true =>
    cases he2 : (processLoop fa true content
        (initSt (startJob job0 content.length) store (startEvs content.length))).2 with
    | none =>
      have he1 : (processLoop fa false content
          (initSt (startJob job0 content.length) store (startEvs content.length))).2
            = none := by
        rw [herr, he2]
      rw [task_ok content store fa false cf job0 _ (split_none _ he1),
          task_ok content store fa true cf job0 _ (split_none _ he2)]
      refine ⟨?_, ?_, ?_, rfl, ?_⟩
      · rw [successPath_job, successPath_job, hj]
      · rw [successPath_store, successPath_store, hs2]
      · rw [successPath_result, successPath_result, hj]
      · rw [successPath_evs, successPath_evs, List.map_append, List.map_append, hevs]
    | some e =>
      have he1 : (processLoop fa false content
          (initSt (startJob job0 content.length) store (startEvs content.length))).2
            = some e := by
        rw [herr, he2]
      rw [task_err content store fa false cf job0 _ e (split_some _ e he1),
          task_err content store fa true cf job0 _ e (split_some _ e he2)]
      refine ⟨?_, ?_, rfl, rfl, ?_⟩
      · rw [failurePath_job, failurePath_job, hj]
      · rw [failurePath_store, failurePath_store, hs2]
      · rw [failurePath_evs, failurePath_evs, List.map_append, List.map_append, hevs]
        simp [setDeliv]

/-- C9 (confirmed): the terminal `completed` snapshot is published with
its `total` field equal to the count of valid processed rows (the loop's
`total` counter, also its `processed`), not the job row's persisted
`total_rows`; every earlier `processing` snapshot carries
`total = ` the raw row count, so whenever some invalid row was skipped
the terminal snapshot's `total` is strictly smaller than the `total` of
every earlier snapshot. -/
theorem C9_completed_total (content : List RawRow) (store : Store) (job0 : Job)
    (cf : Bool) :
    ∃ L c u,
      deliveredSnaps (process_csv_import ⟨content, store, true, none, true, cf⟩ job0).evs
        = L ++ [⟨validCount content, validCount content, c, u, "completed", none⟩] ∧
      (∀ s ∈ L, s.status = "processing" ∧ s.total = content.length) ∧
      (validCount content < content.length →
        ∀ s ∈ L, validCount content < s.total) := by
  obtain ⟨herr, htot, hjtot⟩ := processLoop_none_basic true content
    (initSt (startJob job0 content.length) store (startEvs content.length))
  rw [task_ok content store none true cf job0 _ (split_none _ herr),
    deliveredSnaps_successPath]
  obtain ⟨L, hL, hmem, hpar⟩ := processLoop_none_snaps content
    (initSt (startJob job0 content.length) store (startEvs content.length))
    (by
      intro s hs
      simp [initSt, startEvs, deliveredSnaps] at hs)
    (by simp [initSt, startEvs, deliveredSnaps])
  have hT : (processLoop none true content
      (initSt (startJob job0 content.length) store (startEvs content.length))).1.total
      = validCount content := by
    rw [htot]
    simp [initSt]
  rw [hT] at hL
  have htotmem : ∀ s ∈ L, s.total = content.length := by
    intro s hs
    have := (hmem s hs).2.1
    simpa [initSt, startJob] using this
  refine ⟨L, _, _, hL, ?_, ?_⟩
  · intro s hs
    exact ⟨(hmem s hs).1, htotmem s hs⟩
  · intro hlt s hs
    rw [htotmem s hs]
    exact hlt

theorem statusWrites_append (l1 l2 : List Ev) :
    statusWrites (l1 ++ l2) = statusWrites l1 ++ statusWrites l2 := by
  simp [statusWrites, List.filterMap_append]

/-- C10 (confirmed): on the success path the event trace ends with the
terminal `completed` snapshot publish followed — strictly afterwards — by
the `completed` status write to the job row (then the webhook and the
cleanup); up to the moment of the terminal publish the job row's status
writes end at `processing`, so a subscriber whose stream closed on the
terminal snapshot can still read `processing` from the job record. -/
theorem C10_publish_before_status (content : List RawRow) (store : Store) (job0 : Job)
    (b : Bool) (cf : Bool) :
    ∃ l T c u,
      (process_csv_import ⟨content, store, true, none, b, cf⟩ job0).evs
        = l ++ [Ev.publishSnap ⟨T, T, c, u, "completed", none⟩ b,
                Ev.setStatus "completed", Ev.webhook "import.completed",
                Ev.fileRemove (!cf)] ∧
      statusWrites l = ["processing"] := by
  obtain ⟨herr, htot, hjtot⟩ := processLoop_none_basic b content
    (initSt (startJob job0 content.length) store (startEvs content.length))
  rw [task_ok content store none b cf job0 _ (split_none _ herr), successPath_evs]
  obtain ⟨l, hl⟩ := processLoop_none_final b content
    (initSt (startJob job0 content.length) store (startEvs content.length))
  have hsw : statusWrites l = ["processing"] := by
    have h1 := processLoop_statusWrites none b content
      (initSt (startJob job0 content.length) store (startEvs content.length))
    rw [hl, statusWrites_append] at h1
    simpa [statusWrites, initSt, startEvs] using h1
  refine ⟨l,
    (processLoop none b content
      (initSt (startJob job0 content.length) store (startEvs content.length))).1.total,
    (processLoop none b content
      (initSt (startJob job0 content.length) store (startEvs content.length))).1.created,
    (processLoop none b content
      (initSt (startJob job0 content.length) store (startEvs content.length))).1.updated,
    ?_, hsw⟩
  rw [hl, List.append_assoc]
  rfl

end CsvImport
